import Mathlib

/-!
Verification of the Vitacheck interaction-analysis pipeline.

This file shallowly embeds the server-side pipeline (normalizer, merger,
consensus engine, confidence engine, pair/triple orchestration of
src/server/utils/limit.ts) in Lean 4 and proves or refutes the stated
behavioural properties.  JavaScript numbers are modelled as rationals;
Math.log10 is modelled as an abstract function parameter (its value never
decides any property proved here); timestamps produced by Date are
abstracted to fixed strings.
-/

namespace Vitacheck

/-- The closed severity tag set of src/server/types.ts:
"none" | "mild" | "moderate" | "severe" | "unknown". -/
inductive InteractionSeverity : Type
  | severe
  | moderate
  | mild
  | none
  | unknown
deriving DecidableEq, Repr

/-- The severityOrder record used by both the merger and the consensus
engine: severe 4, moderate 3, mild 2, none 1, unknown 0. -/
def severityOrder : InteractionSeverity → Nat
  | .severe => 4
  | .moderate => 3
  | .mild => 2
  | .none => 1
  | .unknown => 0

/-- The optional stats block of an InteractionSource
(src/server/types.ts).  An absent JSON key is modelled as Option.none. -/
structure SourceStats : Type where
  totalEvents : Option Nat
  seriousEventCounts : Option Nat
  beneficiaries : Option Nat
  eventRate : Option ℚ
  seriousEventRate : Option ℚ
  denominatorMethod : Option String
deriving DecidableEq, Repr

/-- InteractionSource of src/server/types.ts.  The details JSON object is
modelled as an association list of string keys and (stringified) values. -/
structure InteractionSource : Type where
  name : String
  severity : InteractionSeverity
  confidence : ℚ
  summary : String
  details : List (String × String)
  citations : Option (List String)
  stats : Option SourceStats
  lastUpdated : String
deriving DecidableEq, Repr

instance : Inhabited InteractionSource :=
  ⟨{ name := "", severity := .unknown, confidence := 0, summary := "",
     details := [], citations := Option.none, stats := Option.none,
     lastUpdated := "" }⟩

/-- SOURCE_WEIGHTS of src/server/constants.ts. -/
def SOURCE_WEIGHTS (name : String) : Option ℚ :=
  if name = "RxNorm" then some 1
  else if name = "FDA Label" then some (9/10)
  else if name = "SUPP.AI" then some (6/10)
  else if name = "openFDA Adverse Events" then some (7/10)
  else if name = "AI Literature" then some (5/10)
  else Option.none

/-- BASE_CONFIDENCE of src/server/constants.ts. -/
def BASE_CONFIDENCE (name : String) : Option ℚ :=
  if name = "RxNorm" then some (85/100)
  else if name = "FDA Label" then some (80/100)
  else if name = "SUPP.AI" then some (70/100)
  else if name = "openFDA Adverse Events" then some (65/100)
  else if name = "AI Literature" then some (60/100)
  else Option.none

/-- getSourceWeight of src/server/logic/consensus/weights.ts:
SOURCE_WEIGHTS[sourceName] || 0.5.  (All stored weights are nonzero, so
the JavaScript falsy-default coincides with the missing-key default.) -/
def getSourceWeight (sourceName : String) : ℚ :=
  (SOURCE_WEIGHTS sourceName).getD (5/10)

/-- isHighReliabilitySource of src/server/logic/consensus/weights.ts. -/
def isHighReliabilitySource (sourceName : String) : Bool :=
  getSourceWeight sourceName ≥ 8/10

/-- The votes record of calculateConsensusSeverity: one weighted tally
per severity class. -/
structure VotesRec : Type where
  severe : ℚ
  moderate : ℚ
  mild : ℚ
  none : ℚ
  unknown : ℚ
deriving Repr

/-- Dynamic indexing votes[severity]. -/
def votesOf (v : VotesRec) : InteractionSeverity → ℚ
  | .severe => v.severe
  | .moderate => v.moderate
  | .mild => v.mild
  | .none => v.none
  | .unknown => v.unknown

/-- The update votes[severity] += weight. -/
def bumpVote (v : VotesRec) (t : InteractionSeverity) (w : ℚ) : VotesRec :=
  match t with
  | .severe => { v with severe := v.severe + w }
  | .moderate => { v with moderate := v.moderate + w }
  | .mild => { v with mild := v.mild + w }
  | .none => { v with none := v.none + w }
  | .unknown => { v with unknown := v.unknown + w }

/-- The per-iteration state of the voting loop in
calculateConsensusSeverity (src/server/logic/consensus/calculateConsensus.ts):
the weighted votes record and the two high-reliability flags. -/
structure ConsensusTally : Type where
  votes : VotesRec
  hasHighReliabilitySevere : Bool
  hasHighReliabilityNonSevere : Bool
deriving Repr

/-- One iteration of the for-loop of calculateConsensusSeverity:
votes[source.severity] += weight, plus the flag updates. -/
def tallyStep (st : ConsensusTally) (source : InteractionSource) : ConsensusTally :=
  let weight := getSourceWeight source.name
  let votes := bumpVote st.votes source.severity weight
  if isHighReliabilitySource source.name then
    if source.severity = .severe then
      { votes := votes, hasHighReliabilitySevere := true,
        hasHighReliabilityNonSevere := st.hasHighReliabilityNonSevere }
    else if source.severity ≠ .unknown then
      { votes := votes, hasHighReliabilitySevere := st.hasHighReliabilitySevere,
        hasHighReliabilityNonSevere := true }
    else
      { votes := votes, hasHighReliabilitySevere := st.hasHighReliabilitySevere,
        hasHighReliabilityNonSevere := st.hasHighReliabilityNonSevere }
  else
    { votes := votes, hasHighReliabilitySevere := st.hasHighReliabilitySevere,
      hasHighReliabilityNonSevere := st.hasHighReliabilityNonSevere }

/-- The final candidate scan of calculateConsensusSeverity: walk
[moderate, mild, none, unknown] keeping the first strict maximum, starting
from maxVotes = 0 and consensus = unknown. -/
def pickCandidate (votes : VotesRec) : InteractionSeverity :=
  (([InteractionSeverity.moderate, .mild, .none, .unknown]).foldl
    (fun acc s => if votesOf votes s > acc.1 then (votesOf votes s, s) else acc)
    ((0 : ℚ), InteractionSeverity.unknown)).2

/-- calculateConsensusSeverity of
src/server/logic/consensus/calculateConsensus.ts.  The decimal literals
1.5 and 0.8 of the source are written 3/2 and 8/10. -/
def calculateConsensusSeverity (sources : List InteractionSource) : InteractionSeverity :=
  if sources.length = 0 then .unknown
  else
    let st := sources.foldl tallyStep ⟨⟨0, 0, 0, 0, 0⟩, false, false⟩
    if st.votes.severe > 0 then
      if st.hasHighReliabilitySevere then .severe
      else if st.votes.severe ≥ 3/2 then
        if st.hasHighReliabilityNonSevere ∧ st.votes.moderate > st.votes.severe * (8/10) then
          .moderate
        else .severe
      else if st.hasHighReliabilityNonSevere then .moderate
      else if st.votes.moderate > 0 then .moderate
      else pickCandidate st.votes
    else pickCandidate st.votes

/-- The combined weighted vote a severity class receives from an evidence
list: the sum of getSourceWeight over the records voting that class
(the value the voting loop accumulates in votes[t]). -/
def severityWeight (sources : List InteractionSource) (t : InteractionSeverity) : ℚ :=
  ((sources.filter (fun r => r.severity == t)).map (fun r => getSourceWeight r.name)).sum

/-! ## Merger (src/server/logic/mergeSources.ts) -/

/-- The insertion-ordered key list of the JavaScript Map built by
mergeSources while grouping records by name: first occurrence order. -/
def nameKeys (sources : List InteractionSource) : List String :=
  sources.foldl (fun ks s => if s.name ∈ ks then ks else ks ++ [s.name]) []

/-- Object.assign semantics on the details association lists: keys of the
second argument overwrite, new keys are appended in order. -/
def assignPairs (acc upd : List (String × String)) : List (String × String) :=
  upd.foldl
    (fun a kv =>
      if a.any (fun kv2 => kv2.1 == kv.1) then
        a.map (fun kv2 => if kv2.1 == kv.1 then kv else kv2)
      else a ++ [kv])
    acc

/-- Set-union of citation arrays preserving first-insertion order
(the JavaScript Set built by mergeSources). -/
def unionCitations (acc : List String) (cs : List String) : List String :=
  cs.foldl (fun a c => if c ∈ a then a else a ++ [c]) acc

/-- Object.assign on stats blocks.  Every stats object produced by the
pair standardizers lists all of its keys explicitly (possibly with value
undefined), so assigning a later block overwrites every field. -/
def assignStats (_acc upd : SourceStats) : SourceStats := upd

/-- Merge one name group, following the multi-record branch of
mergeSources: highest severity by severityOrder (first winner kept),
arithmetic-mean confidence, Object.assign on details and stats, set union
of citations, longest summary, latest lastUpdated string.  A singleton
group is passed through unchanged, as in the source. -/
def mergeGroup (name : String) (group : List InteractionSource) : InteractionSource :=
  match group with
  | [] => default
  | [s] => s
  | s0 :: _ :: _ =>
    let highestSeverity :=
      group.foldl
        (fun mx s => if severityOrder s.severity > severityOrder mx.severity then s else mx) s0
    let avgConfidence := ((group.map (fun s => s.confidence)).sum) / (group.length : ℚ)
    let mergedDetails := group.foldl (fun acc s => assignPairs acc s.details) []
    let mergedStats :=
      group.foldl
        (fun acc s =>
          match s.stats with
          | Option.none => acc
          | some st =>
            match acc with
            | Option.none => some st
            | some a => some (assignStats a st))
        Option.none
    let citationsSet :=
      group.foldl
        (fun acc s =>
          match s.citations with
          | Option.none => acc
          | some cs => unionCitations acc cs)
        []
    let longestSummary :=
      group.foldl (fun lng s => if s.summary.length > lng.summary.length then s else lng) s0
    let latest :=
      group.foldl (fun lt s => if lt.lastUpdated < s.lastUpdated then s else lt) s0
    { name := name
      severity := highestSeverity.severity
      confidence := avgConfidence
      summary := longestSummary.summary
      details := mergedDetails
      citations := if citationsSet.length > 0 then some citationsSet else Option.none
      stats := mergedStats
      lastUpdated := latest.lastUpdated }

/-- mergeSources of src/server/logic/mergeSources.ts: group by name in
first-occurrence order and merge each group. -/
def mergeSources (sources : List InteractionSource) : List InteractionSource :=
  if sources.length = 0 then []
  else (nameKeys sources).map (fun k => mergeGroup k (sources.filter (fun s => s.name == k)))

/-! ## Confidence engine (src/server/logic/confidence/calculateConfidence.ts)

Math.log10 is modelled as the abstract parameter lg; every property proved
below holds for all values of lg. -/

/-- JavaScript truthiness of an optional number: undefined and 0 are falsy. -/
def truthyNat (o : Option Nat) : Bool :=
  o.getD 0 ≠ 0

/-- calculateConfidence: base confidence by source name, additive
evidence-quality adjustments, a 0.7 factor for unknown severity, clamped
to [0, 1].  The stored confidence field of the record is never read. -/
def calculateConfidence (lg : Nat → ℚ) (source : InteractionSource) : ℚ :=
  let base := (BASE_CONFIDENCE source.name).getD (5/10)
  let afterStats :=
    match source.stats with
    | Option.none => base
    | some st =>
      let withBen :=
        if truthyNat st.beneficiaries then
          base + min (lg (st.beneficiaries.getD 0 + 1) / 10) (15/100)
        else base
      let withRates :=
        if st.eventRate.isSome && st.seriousEventRate.isSome then withBen + 5/100
        else withBen
      match st.totalEvents with
      | Option.none => withRates
      | some te =>
        if te > 1000 then withRates + 5/100
        else if te > 100 then withRates + 2/100
        else if te < 10 then withRates - 5/100
        else withRates
  let afterSeverity :=
    if source.severity = .unknown then afterStats * (7/10) else afterStats
  max 0 (min 1 afterSeverity)

/-- calculateOverallConfidence: weighted mean of the recomputed per-record
confidences, each record weighted by its BASE_CONFIDENCE entry (default
0.5); empty input and zero total weight both give 0. -/
def calculateOverallConfidence (lg : Nat → ℚ) (sources : List InteractionSource) : ℚ :=
  if sources.length = 0 then 0
  else
    let totalWeight :=
      (sources.map (fun s => (BASE_CONFIDENCE s.name).getD (5/10))).sum
    let weightedSum :=
      (sources.map (fun s => calculateConfidence lg s * (BASE_CONFIDENCE s.name).getD (5/10))).sum
    if totalWeight > 0 then weightedSum / totalWeight else 0

/-! ## Standardizers (src/server/logic/standardize.ts)

Timestamps (new Date().toISOString()) are abstracted to "".  Template
strings are assembled with ++; toLocaleString formatting of the exposure
count is abstracted to toString. -/

/-- RxNormInteractionResult of src/server/types.ts (optional fields). -/
structure RxNormInteractionResult : Type where
  severity : Option InteractionSeverity
  description : Option String
  source : Option String
deriving DecidableEq, Repr

/-- One entry of SuppAiResult.interactions. -/
structure SuppAiInteraction : Type where
  severity : Option InteractionSeverity
  description : Option String
deriving DecidableEq, Repr

/-- SuppAiResult of src/server/types.ts. -/
structure SuppAiResult : Type where
  id : Option String
  interactions : Option (List SuppAiInteraction)
deriving DecidableEq, Repr

/-- FdaLabelResult of src/server/types.ts. -/
structure FdaLabelResult : Type where
  warnings : Option (List String)
  rxcui : Option String
  productName : Option String
deriving DecidableEq, Repr

/-- FdaAdverseEventsResult of src/server/types.ts. -/
structure FdaAdverseEventsResult : Type where
  totalEvents : Nat
  seriousEvents : Nat
  outcomes : List (String × Nat)
deriving DecidableEq, Repr

/-- JavaScript truthiness of an optional string: undefined and "" are falsy. -/
def truthyStr (o : Option String) : Bool :=
  o.getD "" ≠ ""

/-- standardizeRxNorm: null when the result carries neither a severity nor
a description; otherwise a record named RxNorm with base confidence 0.85
and no stats block. -/
def standardizeRxNorm (result : Option RxNormInteractionResult) (itemA itemB : String) :
    Option InteractionSource :=
  match result with
  | Option.none => Option.none
  | some res =>
    if res.severity.isNone ∧ ¬ truthyStr res.description then Option.none
    else
      some
        { name := "RxNorm"
          severity := res.severity.getD .unknown
          confidence := (BASE_CONFIDENCE "RxNorm").getD (5/10)
          summary :=
            (res.description).getD
              ("Interaction between " ++ itemA ++ " and " ++ itemB ++ " reported in RxNorm")
          details :=
            [("source", (res.source).getD "RxNorm"), ("description", (res.description).getD "")]
          citations := if truthyStr res.source then some ["https://rxnav.nlm.nih.gov"] else Option.none
          stats := Option.none
          lastUpdated := "" }

/-- standardizeSuppAi: one record named SUPP.AI per reported interaction,
base confidence 0.70, no stats block. -/
def standardizeSuppAi (result : Option SuppAiResult) (itemA itemB : String) :
    List InteractionSource :=
  match result with
  | Option.none => []
  | some res =>
    match res.interactions with
    | Option.none => []
    | some interactions =>
      if interactions.length = 0 then []
      else
        interactions.enum.map fun (index, interaction) =>
          { name := "SUPP.AI"
            severity := interaction.severity.getD .unknown
            confidence := (BASE_CONFIDENCE "SUPP.AI").getD (5/10)
            summary :=
              (interaction.description).getD
                ("Interaction between " ++ itemA ++ " and " ++ itemB ++ " reported in SUPP.AI")
            details :=
              [("description", (interaction.description).getD ""), ("index", toString index)]
            citations := some ["https://supp.ai"]
            stats := Option.none
            lastUpdated := "" }

/-- standardizeFdaLabel: FDA label warnings become one record named
FDA Label at severity moderate, base confidence 0.80, no stats block. -/
def standardizeFdaLabel (result : Option FdaLabelResult) (item : String) :
    Option InteractionSource :=
  match result with
  | Option.none => Option.none
  | some res =>
    match res.warnings with
    | Option.none => Option.none
    | some warnings =>
      if warnings.length = 0 then Option.none
      else
        some
          { name := "FDA Label"
            severity := .moderate
            confidence := (BASE_CONFIDENCE "FDA Label").getD (5/10)
            summary :=
              "FDA label warnings for " ++ item ++ ": " ++
                ⟨(String.intercalate "; " warnings).data.take 200⟩
            details := [("productName", (res.productName).getD ""), ("rxcui", (res.rxcui).getD "")]
            citations := if truthyStr res.rxcui then some ["https://www.fda.gov/drugs"] else Option.none
            stats := Option.none
            lastUpdated := "" }

/-- standardizeFdaAdverseEvents: derives a pair exposure denominator
(min of the two beneficiary counts, or the single known one), event rates
when the denominator is positive, and a severity from serious-event counts
with rate-based overrides.  Zero total events yield null. -/
def standardizeFdaAdverseEvents (result : Option FdaAdverseEventsResult) (itemA itemB : String)
    (beneficiariesA beneficiariesB : Option Nat) : Option InteractionSource :=
  match result with
  | Option.none => Option.none
  | some res =>
    if res.totalEvents = 0 then Option.none
    else
      let benPair : Option Nat × Option String :=
        if truthyNat beneficiariesA ∧ truthyNat beneficiariesB then
          (some (min (beneficiariesA.getD 0) (beneficiariesB.getD 0)), some "min_of_pair")
        else if truthyNat beneficiariesA then (beneficiariesA, some "single_drug_a")
        else if truthyNat beneficiariesB then (beneficiariesB, some "single_drug_b")
        else (Option.none, Option.none)
      let beneficiaries := benPair.1
      let denominatorMethod := benPair.2
      let eventRate : Option ℚ :=
        if truthyNat beneficiaries then
          some ((res.totalEvents : ℚ) / (beneficiaries.getD 0 : ℚ))
        else Option.none
      let seriousEventRate : Option ℚ :=
        if truthyNat beneficiaries then
          some ((res.seriousEvents : ℚ) / (beneficiaries.getD 0 : ℚ))
        else Option.none
      let countSeverity : InteractionSeverity :=
        if res.seriousEvents > 1000 then .severe
        else if res.seriousEvents > 100 then .moderate
        else if res.totalEvents > 0 then .mild
        else .unknown
      let severity : InteractionSeverity :=
        match seriousEventRate with
        | Option.none => countSeverity
        | some r =>
          if r > 1/100 then .severe
          else if r > 1/1000 then .moderate
          else countSeverity
      some
        { name := "openFDA Adverse Events"
          severity := severity
          confidence := (BASE_CONFIDENCE "openFDA Adverse Events").getD (5/10)
          summary :=
            "Adverse event reports for " ++ itemA ++ " + " ++ itemB ++ ": " ++
              toString res.totalEvents ++ " total events, " ++
              toString res.seriousEvents ++ " serious events" ++
              (match beneficiaries with
               | some b => " (exposure: " ++ toString b ++ " beneficiaries)"
               | Option.none => "")
          details :=
            [("totalEvents", toString res.totalEvents),
             ("seriousEvents", toString res.seriousEvents)]
          citations := some ["https://open.fda.gov"]
          stats :=
            some
              { totalEvents := some res.totalEvents
                seriousEventCounts := some res.seriousEvents
                beneficiaries := beneficiaries
                eventRate := eventRate
                seriousEventRate := seriousEventRate
                denominatorMethod := denominatorMethod }
          lastUpdated := "" }

/-- standardizeSingleDrugAdverseEvents: the single-item variant, always at
severity unknown, with a stats block lacking the denominatorMethod key. -/
def standardizeSingleDrugAdverseEvents (result : Option FdaAdverseEventsResult) (item : String)
    (beneficiaries : Option Nat) : Option InteractionSource :=
  match result with
  | Option.none => Option.none
  | some res =>
    if res.totalEvents = 0 then Option.none
    else
      let eventRate : Option ℚ :=
        if truthyNat beneficiaries then
          some ((res.totalEvents : ℚ) / (beneficiaries.getD 0 : ℚ))
        else Option.none
      let seriousEventRate : Option ℚ :=
        if truthyNat beneficiaries then
          some ((res.seriousEvents : ℚ) / (beneficiaries.getD 0 : ℚ))
        else Option.none
      some
        { name := "openFDA Adverse Events"
          severity := .unknown
          confidence := (BASE_CONFIDENCE "openFDA Adverse Events").getD (5/10)
          summary :=
            "Adverse event reports for " ++ item ++ ": " ++ toString res.totalEvents ++
              " total events, " ++ toString res.seriousEvents ++ " serious events"
          details :=
            [("totalEvents", toString res.totalEvents),
             ("seriousEvents", toString res.seriousEvents)]
          citations := some ["https://open.fda.gov"]
          stats :=
            some
              { totalEvents := some res.totalEvents
                seriousEventCounts := some res.seriousEvents
                beneficiaries := beneficiaries
                eventRate := eventRate
                seriousEventRate := seriousEventRate
                denominatorMethod := Option.none }
          lastUpdated := "" }

/-! ## Pair-phase decision logic (src/server/utils/limit.ts, checkInteractions)

The per-pair provider outcome flags of the orchestrator.  Provider calls
themselves are external I/O; what the severity/confidence logic consumes
is exactly: which providers were attempted and whether each produced an
error. -/

/-- The provider-outcome context a single pair computation observes. -/
structure PairProviderCtx : Type where
  rxcuiA : Option String
  rxcuiB : Option String
  rxnormError : Bool
  suppaiKeyPresent : Bool
  suppaiError : Bool
  adverseEventsError : Bool
  includeAi : Bool
  aiError : Bool
deriving DecidableEq, Repr

/-- rxnormAttempted: both items resolved to a truthy RxCUI. -/
def rxnormAttempted (c : PairProviderCtx) : Bool :=
  truthyStr c.rxcuiA && truthyStr c.rxcuiB

/-- rxnormOk = rxnormAttempted && !rxnormResult.error. -/
def rxnormOk (c : PairProviderCtx) : Bool :=
  rxnormAttempted c && !c.rxnormError

/-- suppaiAttempted = !!process.env.SUPPAI_API_KEY. -/
def suppaiAttempted (c : PairProviderCtx) : Bool :=
  c.suppaiKeyPresent

/-- suppaiOk = suppaiAttempted && !suppaiResult.error. -/
def suppaiOk (c : PairProviderCtx) : Bool :=
  c.suppaiKeyPresent && !c.suppaiError

/-- adverseEventsAttempted = true (always attempted). -/
def adverseEventsAttempted (_c : PairProviderCtx) : Bool :=
  true

/-- adverseEventsOk = !adverseEventsResult.error. -/
def adverseEventsOk (c : PairProviderCtx) : Bool :=
  !c.adverseEventsError

/-- aiAttempted = !!request.options?.includeAi. -/
def aiAttempted (c : PairProviderCtx) : Bool :=
  c.includeAi

/-- aiOk = aiAttempted && !aiResult.error. -/
def aiOk (c : PairProviderCtx) : Bool :=
  c.includeAi && !c.aiError

/-- allAttemptedProvidersOk: the [..].every(Boolean) check guarding the
lift from unknown to none — a provider that was not attempted counts as
ok. -/
def allAttemptedProvidersOk (c : PairProviderCtx) : Bool :=
  (if rxnormAttempted c then rxnormOk c else true) &&
  (if suppaiAttempted c then suppaiOk c else true) &&
  (if adverseEventsAttempted c then adverseEventsOk c else true) &&
  (if aiAttempted c then aiOk c else true)

/-- The severity stored on a freshly computed pair report: consensus over
the merged sources, forced to unknown when the RxNorm check was attempted
and failed, lifted to none when the merged list is empty and every
attempted provider completed without error. -/
def pairSeverity (c : PairProviderCtx) (mergedSources : List InteractionSource) :
    InteractionSeverity :=
  let severity := calculateConsensusSeverity mergedSources
  if rxnormAttempted c && !rxnormOk c then .unknown
  else if severity = .unknown ∧ mergedSources.length = 0 ∧ allAttemptedProvidersOk c then .none
  else severity

/-- The checkedSources list built for the baseline-confidence rule: the
names of the providers that ran without error (AI literature included). -/
def checkedSources (c : PairProviderCtx) : List String :=
  (if rxnormOk c then ["RxNorm"] else []) ++
  (if suppaiOk c then ["SUPP.AI"] else []) ++
  (if adverseEventsOk c then ["openFDA Adverse Events"] else []) ++
  (if aiOk c then ["AI Literature"] else [])

/-- The confidence stored on a freshly computed pair report: the overall
confidence of the merged sources, forced to 0 when the RxNorm check was
attempted and failed, replaced by the source-count baseline
(3+ checked → 0.7, 2 → 0.5, 1 → 0.3) when the severity came out none on
an empty merged list. -/
def pairConfidence (lg : Nat → ℚ) (c : PairProviderCtx)
    (mergedSources : List InteractionSource) : ℚ :=
  let confidence := calculateOverallConfidence lg mergedSources
  if rxnormAttempted c && !rxnormOk c then 0
  else if pairSeverity c mergedSources = .none ∧ mergedSources.length = 0 then
    if (checkedSources c).length ≥ 3 then 7/10
    else if (checkedSources c).length ≥ 2 then 5/10
    else if (checkedSources c).length ≥ 1 then 3/10
    else confidence
  else confidence

/-! ## Normalizer (src/server/utils/normalize.ts)

Strings are manipulated at the character-list level.  The JavaScript
whitespace class \s is modelled by isJsWs; String.prototype.toLowerCase is
modelled character-wise by Char.toLower (the item names the pipeline
handles are ASCII). -/

/-- The JavaScript regular-expression whitespace class \s (also the set
String.prototype.trim removes). -/
def isJsWs (c : Char) : Bool :=
  c == ' ' || c == '\t' || c == '\n' || c == '\r' ||
  c.toNat == 11 || c.toNat == 12 || c.toNat == 0xa0 || c.toNat == 0x1680 ||
  (0x2000 ≤ c.toNat && c.toNat ≤ 0x200a) ||
  c.toNat == 0x2028 || c.toNat == 0x2029 || c.toNat == 0x202f ||
  c.toNat == 0x205f || c.toNat == 0x3000 || c.toNat == 0xfeff

/-- String.prototype.trimStart on a character list. -/
def trimStartJs (l : List Char) : List Char :=
  l.dropWhile isJsWs

/-- String.prototype.trimEnd on a character list. -/
def trimEndJs : List Char → List Char
  | [] => []
  | c :: rest =>
    let r := trimEndJs rest
    if r.length = 0 ∧ isJsWs c then [] else c :: r

/-- String.prototype.trim on a character list. -/
def trimJs (l : List Char) : List Char :=
  trimEndJs (trimStartJs l)

/-- The left-to-right scan realizing the global replace of /\s*\/\s*/ by
"/": a match deletes the maximal whitespace run before a slash and the
maximal whitespace run after it.  afterSlash records that the scan sits in
the trailing whitespace of a match; a whitespace character in normal mode
is deleted exactly when its run leads to a slash. -/
def replaceSlashWsGo (afterSlash : Bool) : List Char → List Char
  | [] => []
  | c :: rest =>
    if isJsWs c then
      if afterSlash then replaceSlashWsGo true rest
      else if (rest.dropWhile isJsWs).head? = some '/' then replaceSlashWsGo false rest
      else c :: replaceSlashWsGo false rest
    else if c = '/' then '/' :: replaceSlashWsGo true rest
    else c :: replaceSlashWsGo false rest

/-- The global replace of /\s*\/\s*/ by "/" (whitespace around slashes is
removed, every slash is kept). -/
def replaceSlashWhitespace (l : List Char) : List Char :=
  replaceSlashWsGo false l

/-- The global replace of /\s+/ by " ": every maximal whitespace run
collapses to a single space (emitted at the end of the run). -/
def collapseWhitespace : List Char → List Char
  | [] => []
  | c :: rest =>
    if isJsWs c then
      if rest.head?.any isJsWs then collapseWhitespace rest
      else ' ' :: collapseWhitespace rest
    else c :: collapseWhitespace rest

/-- The canonicalization pipeline of normalizeMedicationValue on a
character list: trim, lowercase, normalize whitespace around slashes,
collapse whitespace runs, trim. -/
def normalizeChars (l : List Char) : List Char :=
  trimJs (collapseWhitespace (replaceSlashWhitespace ((trimJs l).map Char.toLower)))

/-- normalizeMedicationValue of src/server/utils/normalize.ts. -/
def normalizeMedicationValue (value : String) : String :=
  ⟨normalizeChars value.data⟩

/-- The UTF code-unit lexicographic order JavaScript string comparison
(and hence the default Array.prototype.sort) uses, on character lists. -/
def lexLe : List Char → List Char → Bool
  | [], _ => true
  | _ :: _, [] => false
  | a :: as, b :: bs =>
    if a.toNat < b.toNat then true
    else if b.toNat < a.toNat then false
    else lexLe as bs

/-- generatePairKey of src/server/utils/normalize.ts: normalize both
values, sort the two, join with the :: separator. -/
def generatePairKey (a b : String) : String :=
  let normalizedA := normalizeMedicationValue a
  let normalizedB := normalizeMedicationValue b
  if lexLe normalizedA.data normalizedB.data then normalizedA ++ "::" ++ normalizedB
  else normalizedB ++ "::" ++ normalizedA

/-! ## Pair and triple enumeration, triple phase (normalize.ts and limit.ts) -/

/-- A normalized input item: (normalized, original). -/
structure NormItem : Type where
  normalized : String
  original : String
deriving DecidableEq, Repr

/-- The pair report shape InteractionResult of src/server/types.ts. -/
structure InteractionResult : Type where
  itemA : String
  itemB : String
  severity : InteractionSeverity
  confidence : ℚ
  sources : List InteractionSource
  summary : String
  keyNotes : List String
deriving DecidableEq, Repr

/-- The triple report shape CombinedInteractionResult of
src/server/types.ts. -/
structure CombinedInteractionResult : Type where
  items : List String
  severity : InteractionSeverity
  confidence : ℚ
  sources : List InteractionSource
  summary : String
  keyNotes : List String
  pairResults : List InteractionResult
deriving DecidableEq, Repr

/-- One entry of the list generateTriples builds: the three normalized
item values and the three pair keys of the triple. -/
structure TripleSpec : Type where
  items : List String
  pairs : List String
deriving DecidableEq, Repr

/-- generatePairs of src/server/utils/normalize.ts: all index pairs
i < j, in loop order. -/
def generatePairs (items : List NormItem) :
    List (String × String × String × String) :=
  match items with
  | [] => []
  | x :: rest =>
    rest.map (fun y => (x.normalized, y.normalized, x.original, y.original)) ++
      generatePairs rest

/-- The triple built from three items in loop order i < j < k. -/
def mkTriple (x y z : NormItem) : TripleSpec :=
  { items := [x.normalized, y.normalized, z.normalized]
    pairs :=
      [generatePairKey x.normalized y.normalized,
       generatePairKey x.normalized z.normalized,
       generatePairKey y.normalized z.normalized] }

/-- The j < k inner double loop of generateTriples for a fixed first item. -/
def triplesFrom (x : NormItem) : List NormItem → List TripleSpec
  | [] => []
  | y :: rest => rest.map (fun z => mkTriple x y z) ++ triplesFrom x rest

/-- The i < j < k triple loop of generateTriples. -/
def triplesAux : List NormItem → List TripleSpec
  | [] => []
  | x :: rest => triplesFrom x rest ++ triplesAux rest

/-- generateTriples of src/server/utils/normalize.ts.  The pairResults
parameter is accepted and ignored, as in the source. -/
def generateTriples (items : List NormItem)
    (_pairResults : String → Option InteractionResult) : List TripleSpec :=
  if items.length < 3 then [] else triplesAux items

/-- The triple-phase body of checkInteractions
(src/server/utils/limit.ts): look the three pair reports up in the
pair-results map, concatenate their merged source lists, re-merge, re-run
consensus and confidence.  Its only inputs are the pair-results map and
the triple itself: no provider is consulted. -/
def processTriple (pairResults : String → Option InteractionResult) (lg : Nat → ℚ)
    (triple : TripleSpec) : CombinedInteractionResult :=
  let triplePairResults := triple.pairs.filterMap pairResults
  let allSources := triplePairResults.foldl (fun acc r => acc ++ r.sources) []
  let mergedSources := mergeSources allSources
  let severity := calculateConsensusSeverity mergedSources
  let confidence := calculateOverallConfidence lg mergedSources
  let summary :=
    if mergedSources.length > 0 then
      "Combined analysis of " ++ String.intercalate ", " triple.items ++ ": " ++
        (mergedSources.headD default).summary
    else
      "No significant interactions found for " ++ String.intercalate ", " triple.items
  let keyNotes :=
    ((mergedSources.take 3).map (fun s => (⟨s.summary.data.take 150⟩ : String))).filter
      (fun note => note.length > 0)
  { items := triple.items
    severity := severity
    confidence := confidence
    sources := mergedSources
    summary := summary
    keyNotes := keyNotes
    pairResults := triplePairResults }

/-- The triple phase of checkInteractions: map processTriple over
generateTriples.  A pure function of the normalized items and the
pair-results map. -/
def runTriplePhase (items : List NormItem) (pairResults : String → Option InteractionResult)
    (lg : Nat → ℚ) : List CombinedInteractionResult :=
  (generateTriples items pairResults).map (processTriple pairResults lg)

/-! ## Lemmas about the consensus voting loop -/

/-- The votes record a tallyStep produces, regardless of the flag branches. -/
lemma tallyStep_votes (st : ConsensusTally) (s : InteractionSource) :
    (tallyStep st s).votes = bumpVote st.votes s.severity (getSourceWeight s.name) := by
  simp only [tallyStep]
  split_ifs <;> rfl

lemma votesOf_bumpVote (v : VotesRec) (t u : InteractionSeverity) (w : ℚ) :
    votesOf (bumpVote v t w) u = votesOf v u + (if t = u then w else 0) := by
  cases t <;> cases u <;> simp [bumpVote, votesOf]

lemma severityWeight_cons (s : InteractionSource) (rest : List InteractionSource)
    (t : InteractionSeverity) :
    severityWeight (s :: rest) t =
      (if s.severity = t then getSourceWeight s.name else 0) + severityWeight rest t := by
  by_cases h : s.severity = t <;> simp [severityWeight, h]

/-- The voting loop accumulates exactly the per-class weighted vote sums. -/
lemma foldl_tallyStep_votes (sources : List InteractionSource) (st : ConsensusTally)
    (t : InteractionSeverity) :
    votesOf (sources.foldl tallyStep st).votes t = votesOf st.votes t + severityWeight sources t := by
  induction sources generalizing st with
  | nil => simp [severityWeight]
  | cons s rest ih =>
    simp only [List.foldl_cons, severityWeight_cons, ih, tallyStep_votes, votesOf_bumpVote]
    ring

lemma tallyStep_hasHighReliabilitySevere (st : ConsensusTally) (s : InteractionSource) :
    (tallyStep st s).hasHighReliabilitySevere =
      (st.hasHighReliabilitySevere ||
        (isHighReliabilitySource s.name && s.severity == .severe)) := by
  simp only [tallyStep]
  split_ifs with h1 h2 h3 <;> simp_all

lemma tallyStep_hasHighReliabilityNonSevere (st : ConsensusTally) (s : InteractionSource) :
    (tallyStep st s).hasHighReliabilityNonSevere =
      (st.hasHighReliabilityNonSevere ||
        (isHighReliabilitySource s.name && !(s.severity == .severe) &&
          !(s.severity == .unknown))) := by
  simp only [tallyStep]
  split_ifs with h1 h2 h3 <;> simp_all

/-- The hasHighReliabilitySevere flag is an existence test. -/
lemma foldl_tallyStep_hasHighReliabilitySevere (sources : List InteractionSource)
    (st : ConsensusTally) :
    (sources.foldl tallyStep st).hasHighReliabilitySevere =
      (st.hasHighReliabilitySevere ||
        sources.any (fun r => isHighReliabilitySource r.name && r.severity == .severe)) := by
  induction sources generalizing st with
  | nil => simp
  | cons s rest ih =>
    simp [List.foldl_cons, ih, tallyStep_hasHighReliabilitySevere, Bool.or_assoc]

/-- The hasHighReliabilityNonSevere flag is an existence test. -/
lemma foldl_tallyStep_hasHighReliabilityNonSevere (sources : List InteractionSource)
    (st : ConsensusTally) :
    (sources.foldl tallyStep st).hasHighReliabilityNonSevere =
      (st.hasHighReliabilityNonSevere ||
        sources.any (fun r =>
          isHighReliabilitySource r.name && !(r.severity == .severe) &&
            !(r.severity == .unknown))) := by
  induction sources generalizing st with
  | nil => simp
  | cons s rest ih =>
    simp [List.foldl_cons, ih, tallyStep_hasHighReliabilityNonSevere, Bool.or_assoc]

/-- The final candidate scan never elects severe. -/
lemma pickCandidate_ne_severe (v : VotesRec) : pickCandidate v ≠ .severe := by
  simp only [pickCandidate, List.foldl, votesOf]
  split_ifs <;> simp

/-! ## Concrete evidence records used in witnesses and counterexamples -/

/-- A bare evidence record with the given origin name and severity. -/
def plainRecord (n : String) (sev : InteractionSeverity) : InteractionSource :=
  { name := n, severity := sev, confidence := 0, summary := "s",
    details := [], citations := Option.none, stats := Option.none, lastUpdated := "" }

/-- A merged evidence list on which the consensus engine reaches severe
with no high-reliability severe vote while a high-reliability source
dissents: FDA Label votes mild, the three medium sources vote severe
(combined severe weight 0.6 + 0.7 + 0.5 = 1.8). -/
def dissentedSevereList : List InteractionSource :=
  [plainRecord "FDA Label" .mild, plainRecord "SUPP.AI" .severe,
   plainRecord "openFDA Adverse Events" .severe, plainRecord "AI Literature" .severe]

/-- C1 counterexample: on dissentedSevereList the consensus engine returns
severe, yet no record of weight ≥ 0.8 voted severe and a high-reliability
record (FDA Label, weight 0.9) voted mild — violating the claimed
invariant, whose second disjunct demands that no high-reliability record
oppose. -/
theorem consensus_severe_guard_counterexample :
    calculateConsensusSeverity dissentedSevereList = .severe ∧
    ¬((∃ r ∈ dissentedSevereList, getSourceWeight r.name ≥ 8/10 ∧ r.severity = .severe) ∨
      (severityWeight dissentedSevereList .severe ≥ 3/2 ∧
        ¬(∃ r ∈ dissentedSevereList,
            getSourceWeight r.name ≥ 8/10 ∧ r.severity ≠ .severe ∧ r.severity ≠ .unknown))) := by
  constructor
  · simp [calculateConsensusSeverity, dissentedSevereList, tallyStep, plainRecord,
      getSourceWeight, SOURCE_WEIGHTS, isHighReliabilitySource, bumpVote, votesOf]
    norm_num
  · push_neg
    constructor
    · intro r hr
      simp only [dissentedSevereList, List.mem_cons, List.not_mem_nil, or_false] at hr
      rcases hr with h | h | h | h <;> subst h <;>
        simp [plainRecord, getSourceWeight, SOURCE_WEIGHTS] <;> norm_num
    · intro _
      refine ⟨plainRecord "FDA Label" .mild, by simp [dissentedSevereList], ?_,
        by simp [plainRecord], by simp [plainRecord]⟩
      simp [plainRecord, getSourceWeight, SOURCE_WEIGHTS]
      norm_num

/-- C1 (amended): if the consensus engine returns severe then either a
record of weight ≥ 0.8 voted severe, or the combined weight at severe is
≥ 1.5 and it is not the case that both a high-reliability record voted a
non-severe non-unknown severity and the moderate weight exceeds 80% of
the severe weight. -/
theorem consensus_severe_guard (E : List InteractionSource)
    (h : calculateConsensusSeverity E = .severe) :
    (∃ r ∈ E, getSourceWeight r.name ≥ 8/10 ∧ r.severity = .severe) ∨
    (severityWeight E .severe ≥ 3/2 ∧
      ¬((∃ r ∈ E, getSourceWeight r.name ≥ 8/10 ∧ r.severity ≠ .severe ∧ r.severity ≠ .unknown) ∧
        severityWeight E .moderate > severityWeight E .severe * (8/10))) := by
  by_cases hE : E.length = 0
  · simp [calculateConsensusSeverity, hE] at h
  · have hsev :
        (E.foldl tallyStep ⟨⟨0, 0, 0, 0, 0⟩, false, false⟩).votes.severe =
          severityWeight E .severe := by
      simpa [votesOf] using foldl_tallyStep_votes E ⟨⟨0, 0, 0, 0, 0⟩, false, false⟩ .severe
    have hmod :
        (E.foldl tallyStep ⟨⟨0, 0, 0, 0, 0⟩, false, false⟩).votes.moderate =
          severityWeight E .moderate := by
      simpa [votesOf] using foldl_tallyStep_votes E ⟨⟨0, 0, 0, 0, 0⟩, false, false⟩ .moderate
    have hhrs :
        (E.foldl tallyStep ⟨⟨0, 0, 0, 0, 0⟩, false, false⟩).hasHighReliabilitySevere =
          E.any (fun r => isHighReliabilitySource r.name && r.severity == .severe) := by
      simpa using foldl_tallyStep_hasHighReliabilitySevere E ⟨⟨0, 0, 0, 0, 0⟩, false, false⟩
    have hhrn :
        (E.foldl tallyStep ⟨⟨0, 0, 0, 0, 0⟩, false, false⟩).hasHighReliabilityNonSevere =
          E.any (fun r =>
            isHighReliabilitySource r.name && !(r.severity == .severe) &&
              !(r.severity == .unknown)) := by
      simpa using foldl_tallyStep_hasHighReliabilityNonSevere E ⟨⟨0, 0, 0, 0, 0⟩, false, false⟩
    have hExists :
        (E.any (fun r => isHighReliabilitySource r.name && r.severity == .severe) = true) ↔
          ∃ r ∈ E, getSourceWeight r.name ≥ 8/10 ∧ r.severity = .severe := by
      simp [List.any_eq_true, isHighReliabilitySource]
    have hExistsN :
        (E.any (fun r =>
            isHighReliabilitySource r.name && !(r.severity == .severe) &&
              !(r.severity == .unknown)) = true) ↔
          ∃ r ∈ E, getSourceWeight r.name ≥ 8/10 ∧ r.severity ≠ .severe ∧ r.severity ≠ .unknown := by
      simp [List.any_eq_true, isHighReliabilitySource, and_assoc]
    simp only [calculateConsensusSeverity, hE, if_false] at h
    split_ifs at h with hpos hhrsb hge hboth hnb hmodb
    · left
      exact hExists.mp (by rw [← hhrs]; exact hhrsb)
    · right
      rw [hsev] at hge
      refine ⟨hge, ?_⟩
      rintro ⟨hop, hmg⟩
      exact hboth ⟨by rw [hhrn]; exact hExistsN.mpr hop, by rw [hmod, hsev]; exact hmg⟩
    · exact absurd h (pickCandidate_ne_severe _)
    · exact absurd h (pickCandidate_ne_severe _)

/-- C1 witness: a single RxNorm severe record drives the consensus to
severe through the high-reliability branch, and the amended invariant
holds there. -/
theorem consensus_severe_guard_witness :
    (∃ r ∈ [plainRecord "RxNorm" .severe],
        getSourceWeight r.name ≥ 8/10 ∧ r.severity = .severe) ∨
    (severityWeight [plainRecord "RxNorm" .severe] .severe ≥ 3/2 ∧
      ¬((∃ r ∈ [plainRecord "RxNorm" .severe],
            getSourceWeight r.name ≥ 8/10 ∧ r.severity ≠ .severe ∧ r.severity ≠ .unknown) ∧
        severityWeight [plainRecord "RxNorm" .severe] .moderate >
          severityWeight [plainRecord "RxNorm" .severe] .severe * (8/10))) :=
  consensus_severe_guard [plainRecord "RxNorm" .severe]
    (by
      simp [calculateConsensusSeverity, tallyStep, plainRecord, getSourceWeight, SOURCE_WEIGHTS,
        isHighReliabilitySource, bumpVote, votesOf]
      norm_num)

/-- C2 counterexample: with exactly one literature_ai record at severity
severe the consensus engine does not return moderate. -/
theorem literature_only_severe_counterexample :
    calculateConsensusSeverity [plainRecord "AI Literature" .severe] ≠ .moderate := by
  have :
      calculateConsensusSeverity [plainRecord "AI Literature" .severe] = .unknown := by
    simp [calculateConsensusSeverity, tallyStep, plainRecord, getSourceWeight, SOURCE_WEIGHTS,
      isHighReliabilitySource, bumpVote, votesOf, pickCandidate]
    norm_num
  rw [this]
  simp

/-- C2 (amended): when the input is exactly one literature_ai record
(weight 0.5) at severity severe, the consensus engine returns unknown:
the severe vote is blocked (0.5 < 1.5, no high-reliability support) and
no other class carries positive weight, so the candidate scan keeps its
initial unknown. -/
theorem literature_only_severe_amended :
    calculateConsensusSeverity [plainRecord "AI Literature" .severe] = .unknown := by
  simp [calculateConsensusSeverity, tallyStep, plainRecord, getSourceWeight, SOURCE_WEIGHTS,
    isHighReliabilitySource, bumpVote, votesOf, pickCandidate]
  norm_num

/-! ## The orchestrator on an empty merged evidence list -/

lemma calculateConsensusSeverity_nil : calculateConsensusSeverity [] = .unknown := by
  simp [calculateConsensusSeverity]

lemma calculateOverallConfidence_nil (lg : Nat → ℚ) : calculateOverallConfidence lg [] = 0 := by
  simp [calculateOverallConfidence]

/-- When every attempted provider succeeded, the RxNorm-failure override
cannot fire. -/
lemma rxnorm_failure_false_of_allOk (c : PairProviderCtx)
    (hall : allAttemptedProvidersOk c = true) :
    (rxnormAttempted c && !rxnormOk c) = false := by
  simp only [allAttemptedProvidersOk, Bool.and_eq_true] at hall
  cases hA : rxnormAttempted c
  · simp
  · have := hall.1.1
    rw [hA] at this
    simp only [if_true] at this
    simp [this]

/-- On an empty merged list the stored severity is none when every
attempted provider succeeded. -/
lemma pairSeverity_nil_of_allOk (c : PairProviderCtx)
    (hall : allAttemptedProvidersOk c = true) :
    pairSeverity c [] = .none := by
  simp [pairSeverity, rxnorm_failure_false_of_allOk c hall, calculateConsensusSeverity_nil, hall]

/-- On an empty merged list the stored severity stays unknown when some
attempted provider errored. -/
lemma pairSeverity_nil_of_not_allOk (c : PairProviderCtx)
    (hall : allAttemptedProvidersOk c = false) :
    pairSeverity c [] = .unknown := by
  cases hrx : (rxnormAttempted c && !rxnormOk c)
  · simp [pairSeverity, hrx, calculateConsensusSeverity_nil, hall]
  · simp [pairSeverity, hrx]

/-- C3 counterexample context: RxNorm identifiers absent (so
rxnorm_interactions is not attempted), the SUPP.AI key present but the
call errored, the adverse-events call (a primary source, always
attempted) succeeded, AI not requested. -/
def partialFailureCtx : PairProviderCtx :=
  { rxcuiA := Option.none, rxcuiB := Option.none, rxnormError := false,
    suppaiKeyPresent := true, suppaiError := true, adverseEventsError := false,
    includeAi := false, aiError := false }

/-- C3 counterexample: the pair_adverse_events primary provider was
attempted and completed without error on an empty merged list, yet the
reported severity is unknown, not none — because another attempted
provider (supplement_interactions) errored.  The claimed
"regardless of whether other attempted providers errored" fails. -/
theorem none_lift_counterexample :
    adverseEventsAttempted partialFailureCtx = true ∧
    adverseEventsOk partialFailureCtx = true ∧
    pairSeverity partialFailureCtx [] = .unknown ∧
    pairSeverity partialFailureCtx [] ≠ .none := by
  refine ⟨rfl, by decide, ?_, ?_⟩
  · exact pairSeverity_nil_of_not_allOk partialFailureCtx (by decide)
  · rw [pairSeverity_nil_of_not_allOk partialFailureCtx (by decide)]
    simp

/-- C3 (amended): on a cache-miss pair whose merged evidence list is
empty, the reported severity is none exactly when every attempted
provider — secondary providers included — completed without error; if any
attempted provider errored the severity stays unknown. -/
theorem empty_pair_severity (c : PairProviderCtx) :
    (allAttemptedProvidersOk c = true → pairSeverity c [] = .none) ∧
    (allAttemptedProvidersOk c = false → pairSeverity c [] = .unknown) :=
  ⟨pairSeverity_nil_of_allOk c, pairSeverity_nil_of_not_allOk c⟩

/-- C3 witness context: both identifiers resolved, RxNorm and
adverse-events succeed, no optional providers. -/
def fullOkCtx : PairProviderCtx :=
  { rxcuiA := some "1191", rxcuiB := some "5640", rxnormError := false,
    suppaiKeyPresent := false, suppaiError := false, adverseEventsError := false,
    includeAi := false, aiError := false }

/-- C3 witness: with every attempted provider succeeding on an empty
merged list, the severity is lifted to none. -/
theorem empty_pair_severity_witness : pairSeverity fullOkCtx [] = .none :=
  (empty_pair_severity fullOkCtx).1 (by decide)

/-- C4 counterexample context: RxNorm and adverse events succeed (two
successful primary sources), the SUPP.AI key is absent, and the AI
literature provider — a secondary source — is requested and succeeds. -/
def secondaryCountedCtx : PairProviderCtx :=
  { rxcuiA := some "1191", rxcuiB := some "5640", rxnormError := false,
    suppaiKeyPresent := false, suppaiError := false, adverseEventsError := false,
    includeAi := true, aiError := false }

/-- C4 counterexample: exactly two primary sources (rxnorm_interactions
and pair_adverse_events) ran without error, so the claim demands the 0.50
baseline, but the code counts the successful AI literature call as well
(three checked sources) and stores 0.70. -/
theorem baseline_count_counterexample :
    rxnormOk secondaryCountedCtx = true ∧
    adverseEventsOk secondaryCountedCtx = true ∧
    suppaiOk secondaryCountedCtx = false ∧
    pairConfidence (fun _ => 0) secondaryCountedCtx [] = 7/10 ∧
    (7/10 : ℚ) ≠ 5/10 := by
  refine ⟨by decide, by decide, by decide, ?_, by norm_num⟩
  simp [pairConfidence, pairSeverity, calculateConsensusSeverity, calculateOverallConfidence,
    allAttemptedProvidersOk, rxnormAttempted, rxnormOk, suppaiAttempted, suppaiOk,
    adverseEventsAttempted, adverseEventsOk, aiAttempted, aiOk, truthyStr, secondaryCountedCtx,
    checkedSources, pickCandidate, votesOf]

/-- C4 (amended): on an empty merged list the stored confidence is the
baseline keyed by the number of successfully checked sources — AI
literature counted alongside the three primary sources — when every
attempted provider succeeded (3+ → 0.70, 2 → 0.50, 1 → 0.30, 0 → 0); if
any attempted provider errored the confidence is 0. -/
theorem baseline_by_checked_count (lg : Nat → ℚ) (c : PairProviderCtx) :
    (allAttemptedProvidersOk c = true →
      pairConfidence lg c [] =
        (if (checkedSources c).length ≥ 3 then 7/10
         else if (checkedSources c).length ≥ 2 then 5/10
         else if (checkedSources c).length ≥ 1 then 3/10 else 0)) ∧
    (allAttemptedProvidersOk c = false → pairConfidence lg c [] = 0) := by
  constructor
  · intro hall
    simp [pairConfidence, rxnorm_failure_false_of_allOk c hall,
      pairSeverity_nil_of_allOk c hall, calculateOverallConfidence_nil]
  · intro hall
    cases hrx : (rxnormAttempted c && !rxnormOk c)
    · simp [pairConfidence, hrx, pairSeverity_nil_of_not_allOk c hall,
        calculateOverallConfidence_nil]
    · simp [pairConfidence, hrx]

/-- C4 witness context: only the always-attempted adverse-events primary
runs, and it succeeds. -/
def singleOkCtx : PairProviderCtx :=
  { rxcuiA := Option.none, rxcuiB := Option.none, rxnormError := false,
    suppaiKeyPresent := false, suppaiError := false, adverseEventsError := false,
    includeAi := false, aiError := false }

/-- C4 witness: one successfully checked source yields the 0.30 baseline. -/
theorem baseline_by_checked_count_witness :
    pairConfidence (fun _ => 0) singleOkCtx [] = 3/10 := by
  have h := (baseline_by_checked_count (fun _ => 0) singleOkCtx).1 (by decide)
  simpa [checkedSources, singleOkCtx, rxnormOk, suppaiOk, adverseEventsOk, aiOk,
    rxnormAttempted, truthyStr] using h

/-! ## Severity derivation for adverse-event evidence -/

/-- C8: every evidence record standardizeFdaAdverseEvents produces
derives its severity from the serious-event counts
(> 1000 severe, > 100 moderate, totalEvents > 0 mild), and when an
exposure denominator is known the recorded seriousEventRate overrides:
rate > 1e-2 forces severe, 1e-3 < rate ≤ 1e-2 forces moderate, and
rate ≤ 1e-3 leaves the count-based severity. -/
theorem adverse_event_severity (res : FdaAdverseEventsResult) (itemA itemB : String)
    (benA benB : Option Nat) (r : InteractionSource) (st : SourceStats)
    (hr : standardizeFdaAdverseEvents (some res) itemA itemB benA benB = some r)
    (hst : r.stats = some st) :
    (st.seriousEventRate = Option.none →
      r.severity =
        (if res.seriousEvents > 1000 then .severe
         else if res.seriousEvents > 100 then .moderate
         else if res.totalEvents > 0 then .mild else .unknown)) ∧
    (∀ q : ℚ, st.seriousEventRate = some q →
      (q > 1/100 → r.severity = .severe) ∧
      (¬ q > 1/100 → q > 1/1000 → r.severity = .moderate) ∧
      (¬ q > 1/100 → ¬ q > 1/1000 →
        r.severity =
          (if res.seriousEvents > 1000 then .severe
           else if res.seriousEvents > 100 then .moderate
           else if res.totalEvents > 0 then .mild else .unknown))) := by
  by_cases h0 : res.totalEvents = 0
  · simp [standardizeFdaAdverseEvents, h0] at hr
  · simp only [standardizeFdaAdverseEvents, h0, if_false, Option.some.injEq] at hr
    subst hr
    simp only [Option.some.injEq] at hst
    subst hst
    by_cases hb :
        truthyNat
          (if truthyNat benA ∧ truthyNat benB then
              (some (min (benA.getD 0) (benB.getD 0)), some "min_of_pair")
            else if truthyNat benA then (benA, some "single_drug_a")
            else if truthyNat benB then (benB, some "single_drug_b")
            else (Option.none, Option.none)).1
    · simp only [hb, if_true]
      constructor
      · intro hnone
        simp at hnone
      · intro q hq
        simp only [Option.some.injEq] at hq
        subst hq
        refine ⟨fun hgt => by rw [if_pos hgt], fun hle hgt => by rw [if_neg hle, if_pos hgt],
          fun hle hle2 => by rw [if_neg hle, if_neg hle2]⟩
    · simp only [hb, if_false]
      constructor
      · intro _
        rfl
      · intro q hq
        simp at hq

/-- A sample provider result: 500 total events, 150 serious. -/
def sampleAdverseResult : FdaAdverseEventsResult :=
  { totalEvents := 500, seriousEvents := 150, outcomes := [] }

/-- The record standardizeFdaAdverseEvents produces for the sample result
with a 100000-beneficiary exposure denominator on the first item. -/
def sampleAdverseRecord : InteractionSource :=
  (standardizeFdaAdverseEvents (some sampleAdverseResult) "warfarin" "ibuprofen"
      (some 100000) Option.none).getD default

/-- The stats block of the sample record. -/
def sampleAdverseStats : SourceStats :=
  sampleAdverseRecord.stats.getD
    ⟨Option.none, Option.none, Option.none, Option.none, Option.none, Option.none⟩

/-- C8 witness: 150 serious events among 100000 beneficiaries give a
serious-event rate of 0.0015, in (1e-3, 1e-2], so the rate override
forces moderate (the raw count 150 > 100 also says moderate). -/
theorem adverse_event_severity_witness : sampleAdverseRecord.severity = .moderate := by
  have hr :
      standardizeFdaAdverseEvents (some sampleAdverseResult) "warfarin" "ibuprofen"
        (some 100000) Option.none = some sampleAdverseRecord := rfl
  have hst : sampleAdverseRecord.stats = some sampleAdverseStats := rfl
  have hq : sampleAdverseStats.seriousEventRate = some ((150 : ℚ)/100000) := by
    norm_num [sampleAdverseStats, sampleAdverseRecord, standardizeFdaAdverseEvents,
      sampleAdverseResult, truthyNat]
  have h :=
    (adverse_event_severity sampleAdverseResult "warfarin" "ibuprofen" (some 100000) Option.none
        sampleAdverseRecord sampleAdverseStats hr hst).2 ((150 : ℚ)/100000) hq
  exact h.2.1 (by norm_num) (by norm_num)

/-! ## The aggregate confidence never reads the stored confidence field -/

/-- Two evidence records that agree on every field except (possibly) the
stored confidence value. -/
def sameExceptConfidence (r1 r2 : InteractionSource) : Prop :=
  r1.name = r2.name ∧ r1.severity = r2.severity ∧ r1.summary = r2.summary ∧
  r1.details = r2.details ∧ r1.citations = r2.citations ∧ r1.stats = r2.stats ∧
  r1.lastUpdated = r2.lastUpdated

/-- The recomputed per-record confidence depends only on name, stats and
severity. -/
lemma calculateConfidence_congr (lg : Nat → ℚ) (r1 r2 : InteractionSource)
    (h : sameExceptConfidence r1 r2) :
    calculateConfidence lg r1 = calculateConfidence lg r2 := by
  obtain ⟨hn, hsev, -, -, -, hstats, -⟩ := h
  simp only [calculateConfidence, hn, hsev, hstats]

/-- C10: the aggregate confidence is invariant under arbitrary changes to
the stored per-record confidence values (the merger's arithmetic-mean
confidence included); it is recomputed from name, stats and severity
alone. -/
lemma forall₂_map_weight_eq (l1 l2 : List InteractionSource)
    (h : List.Forall₂ sameExceptConfidence l1 l2) :
    l1.map (fun s => (BASE_CONFIDENCE s.name).getD (5/10)) =
      l2.map (fun s => (BASE_CONFIDENCE s.name).getD (5/10)) := by
  induction h with
  | nil => rfl
  | cons hx _ ih => simp [hx.1, ih]

lemma forall₂_map_weighted_conf_eq (lg : Nat → ℚ) (l1 l2 : List InteractionSource)
    (h : List.Forall₂ sameExceptConfidence l1 l2) :
    l1.map (fun s => calculateConfidence lg s * (BASE_CONFIDENCE s.name).getD (5/10)) =
      l2.map (fun s => calculateConfidence lg s * (BASE_CONFIDENCE s.name).getD (5/10)) := by
  induction h with
  | nil => rfl
  | cons hx _ ih => simp [hx.1, calculateConfidence_congr lg _ _ hx, ih]

theorem overall_confidence_ignores_stored (lg : Nat → ℚ)
    (l1 l2 : List InteractionSource) (h : List.Forall₂ sameExceptConfidence l1 l2) :
    calculateOverallConfidence lg l1 = calculateOverallConfidence lg l2 := by
  simp only [calculateOverallConfidence, h.length_eq, forall₂_map_weight_eq l1 l2 h,
    forall₂_map_weighted_conf_eq lg l1 l2 h]

/-- A RxNorm mild record carrying stored confidence 0. -/
def storedZeroRecord : InteractionSource :=
  { plainRecord "RxNorm" .mild with confidence := 0 }

/-- The same record with stored confidence 0.99. -/
def storedHighRecord : InteractionSource :=
  { plainRecord "RxNorm" .mild with confidence := 99/100 }

/-- C10 witness: changing a record's stored confidence from 0 to 0.99
leaves the aggregate unchanged. -/
theorem overall_confidence_ignores_stored_witness :
    calculateOverallConfidence (fun _ => 0) [storedZeroRecord] =
      calculateOverallConfidence (fun _ => 0) [storedHighRecord] :=
  overall_confidence_ignores_stored (fun _ => 0) [storedZeroRecord] [storedHighRecord]
    (by
      refine List.Forall₂.cons ?_ List.Forall₂.nil
      simp [sameExceptConfidence, storedZeroRecord, storedHighRecord, plainRecord])

/-! ## Merger invariants: one record per origin, maximum severity -/

lemma nameKeys_step_nodup (ks : List String) (n : String) (h : ks.Nodup) :
    (if n ∈ ks then ks else ks ++ [n]).Nodup := by
  by_cases hm : n ∈ ks
  · simpa [hm]
  · simp [hm, List.nodup_append, h, List.disjoint_singleton, hm]

lemma foldl_nameKeys_nodup (l : List InteractionSource) (ks : List String) (h : ks.Nodup) :
    (l.foldl (fun ks s => if s.name ∈ ks then ks else ks ++ [s.name]) ks).Nodup := by
  induction l generalizing ks with
  | nil => simpa
  | cons s rest ih => exact ih _ (nameKeys_step_nodup ks s.name h)

lemma nameKeys_nodup (l : List InteractionSource) : (nameKeys l).Nodup :=
  foldl_nameKeys_nodup l [] List.nodup_nil

lemma foldl_nameKeys_mem (l : List InteractionSource) (ks : List String) (k : String) :
    (k ∈ l.foldl (fun ks s => if s.name ∈ ks then ks else ks ++ [s.name]) ks) ↔
      k ∈ ks ∨ ∃ s ∈ l, s.name = k := by
  induction l generalizing ks with
  | nil => simp
  | cons s rest ih =>
    simp only [List.foldl_cons, ih, List.mem_cons]
    constructor
    · rintro (hk | hs)
      · by_cases hm : s.name ∈ ks
        · simp only [hm, if_true] at hk
          exact Or.inl hk
        · simp only [hm, if_false, List.mem_append, List.mem_singleton] at hk
          rcases hk with hk | hk
          · exact Or.inl hk
          · exact Or.inr ⟨s, Or.inl rfl, hk.symm⟩
      · obtain ⟨t, ht, htk⟩ := hs
        exact Or.inr ⟨t, Or.inr ht, htk⟩
    · rintro (hk | ⟨t, ht | ht, htk⟩)
      · left
        by_cases hm : s.name ∈ ks <;> simp [hm, hk]
      · left
        subst ht
        by_cases hm : t.name ∈ ks <;> simp [hm, htk.symm]
      · exact Or.inr ⟨t, ht, htk⟩

lemma nameKeys_mem (l : List InteractionSource) (k : String) :
    k ∈ nameKeys l ↔ ∃ s ∈ l, s.name = k := by
  simpa using foldl_nameKeys_mem l [] k

/-- The severity-maximum reduce inside mergeGroup, as a named function. -/
def highestSeverityFold (g : List InteractionSource) (a : InteractionSource) :
    InteractionSource :=
  g.foldl (fun mx s => if severityOrder s.severity > severityOrder mx.severity then s else mx) a

/-- The reduce returns its initial value or a group member, and its
severity order bounds the severity order of the initial value and of
every group member. -/
lemma highestSeverityFold_spec (g : List InteractionSource) (a : InteractionSource) :
    (highestSeverityFold g a = a ∨ highestSeverityFold g a ∈ g) ∧
    severityOrder a.severity ≤ severityOrder (highestSeverityFold g a).severity ∧
    ∀ s ∈ g, severityOrder s.severity ≤ severityOrder (highestSeverityFold g a).severity := by
  induction g generalizing a with
  | nil => exact ⟨Or.inl rfl, Nat.le_refl _, by simp⟩
  | cons s g' ih =>
    have hfold :
        highestSeverityFold (s :: g') a =
          highestSeverityFold g'
            (if severityOrder s.severity > severityOrder a.severity then s else a) := rfl
    obtain ⟨hmem, hle, hall⟩ :=
      ih (if severityOrder s.severity > severityOrder a.severity then s else a)
    have hb_mem :
        (if severityOrder s.severity > severityOrder a.severity then s else a) = s ∨
          (if severityOrder s.severity > severityOrder a.severity then s else a) = a := by
      split_ifs <;> simp
    have hba :
        severityOrder a.severity ≤
          severityOrder
            (if severityOrder s.severity > severityOrder a.severity then s else a).severity := by
      split_ifs with hc
      · omega
      · exact Nat.le_refl _
    have hbs :
        severityOrder s.severity ≤
          severityOrder
            (if severityOrder s.severity > severityOrder a.severity then s else a).severity := by
      split_ifs with hc
      · exact Nat.le_refl _
      · omega
    refine ⟨?_, ?_, ?_⟩
    · rw [hfold]
      rcases hmem with hmem | hmem
      · rcases hb_mem with hb | hb
        · rw [hb] at hmem ⊢
          rw [hmem]
          exact Or.inr (List.mem_cons_self _ _)
        · rw [hb] at hmem ⊢
          exact Or.inl hmem
      · exact Or.inr (List.mem_cons_of_mem s hmem)
    · rw [hfold]
      exact le_trans hba hle
    · intro t ht
      rw [hfold]
      rcases List.mem_cons.mp ht with rfl | ht'
      · exact le_trans hbs hle
      · exact hall t ht'

/-- The merged record of a nonempty name group carries the group name. -/
lemma mergeGroup_name (k : String) (g : List InteractionSource) (hne : g ≠ [])
    (hnames : ∀ s ∈ g, s.name = k) : (mergeGroup k g).name = k := by
  match g with
  | [] => exact absurd rfl hne
  | [s] => simpa [mergeGroup] using hnames s (by simp)
  | s0 :: s1 :: rest => rfl

/-- The merged record of a nonempty group takes a member's severity and
dominates every member's severity in the fixed order. -/
lemma mergeGroup_severity (k : String) (g : List InteractionSource) (hne : g ≠ []) :
    (∃ s ∈ g, s.severity = (mergeGroup k g).severity) ∧
    ∀ s ∈ g, severityOrder s.severity ≤ severityOrder (mergeGroup k g).severity := by
  match g with
  | [] => exact absurd rfl hne
  | [s] =>
    refine ⟨⟨s, by simp, by simp [mergeGroup]⟩, ?_⟩
    intro t ht
    rcases List.mem_singleton.mp ht with rfl
    simp [mergeGroup]
  | s0 :: s1 :: rest =>
    have hsev :
        (mergeGroup k (s0 :: s1 :: rest)).severity =
          (highestSeverityFold (s0 :: s1 :: rest) s0).severity := rfl
    obtain ⟨hmem, -, hall⟩ := highestSeverityFold_spec (s0 :: s1 :: rest) s0
    constructor
    · rcases hmem with hmem | hmem
      · exact ⟨s0, by simp, by rw [hsev, hmem]⟩
      · exact ⟨highestSeverityFold (s0 :: s1 :: rest) s0, hmem, by rw [hsev]⟩
    · intro t ht
      rw [hsev]
      exact hall t ht

/-- Members of the merger's name groups. -/
lemma mem_of_mem_filter_name {l : List InteractionSource} {k : String}
    {s : InteractionSource} (h : s ∈ l.filter (fun s => s.name == k)) :
    s ∈ l ∧ s.name = k := by
  have := List.mem_filter.mp h
  exact ⟨this.1, by simpa using this.2⟩

/-- C6: the merger emits at most one record per origin, and each emitted
record's severity is the maximum — attained and dominating — of the
severities of the input records with that origin, under the total order
unknown < none < mild < moderate < severe encoded by severityOrder. -/
theorem merger_one_per_origin_max_severity (l : List InteractionSource) :
    ((mergeSources l).map (fun m => m.name)).Nodup ∧
    ∀ m ∈ mergeSources l,
      (∃ s ∈ l, s.name = m.name ∧ s.severity = m.severity) ∧
      (∀ s ∈ l, s.name = m.name → severityOrder s.severity ≤ severityOrder m.severity) := by
  by_cases hl : l.length = 0
  · simp [mergeSources, hl]
  · have hms :
        mergeSources l =
          (nameKeys l).map (fun k => mergeGroup k (l.filter (fun s => s.name == k))) := by
      simp [mergeSources, hl]
    have hgroup :
        ∀ k ∈ nameKeys l,
          l.filter (fun s => s.name == k) ≠ [] ∧
            ∀ t ∈ l.filter (fun s => s.name == k), t.name = k := by
      intro k hk
      obtain ⟨s, hs, hsk⟩ := (nameKeys_mem l k).mp hk
      refine ⟨List.ne_nil_of_mem (List.mem_filter.mpr ⟨hs, by simp [hsk]⟩), ?_⟩
      intro t ht
      exact (mem_of_mem_filter_name ht).2
    constructor
    · rw [hms, List.map_map]
      have :
          (nameKeys l).map
              ((fun m => m.name) ∘ fun k => mergeGroup k (l.filter (fun s => s.name == k))) =
            (nameKeys l).map id := by
        apply List.map_congr_left
        intro k hk
        obtain ⟨hne, hnames⟩ := hgroup k hk
        simpa using mergeGroup_name k _ hne hnames
      rw [this, List.map_id]
      exact nameKeys_nodup l
    · intro m hm
      rw [hms] at hm
      obtain ⟨k, hk, hmk⟩ := List.mem_map.mp hm
      obtain ⟨hne, hnames⟩ := hgroup k hk
      have hname : m.name = k := by rw [← hmk]; exact mergeGroup_name k _ hne hnames
      obtain ⟨⟨s, hsg, hsev⟩, hall⟩ := mergeGroup_severity k (l.filter (fun s => s.name == k)) hne
      constructor
      · obtain ⟨hsl, hsk⟩ := mem_of_mem_filter_name hsg
        exact ⟨s, hsl, by rw [hsk, hname], by rw [hsev, hmk]⟩
      · intro t htl htn
        have htg : t ∈ l.filter (fun s => s.name == k) :=
          List.mem_filter.mpr ⟨htl, by simp [htn, hname]⟩
        have := hall t htg
        rw [hmk] at this
        exact this

/-- Two records sharing the RxNorm origin at different severities. -/
def duplicatedOriginList : List InteractionSource :=
  [plainRecord "RxNorm" .mild, plainRecord "RxNorm" .severe]

/-- The single record the merger produces for duplicatedOriginList. -/
def duplicatedOriginMerged : InteractionSource :=
  (mergeSources duplicatedOriginList).headD default

/-- C6 witness: merging two RxNorm records leaves one record per origin
and its severity dominates the severe member's severity. -/
theorem merger_one_per_origin_max_severity_witness :
    ((mergeSources duplicatedOriginList).map (fun m => m.name)).Nodup ∧
    severityOrder (plainRecord "RxNorm" .severe).severity ≤
      severityOrder duplicatedOriginMerged.severity :=
  ⟨(merger_one_per_origin_max_severity duplicatedOriginList).1,
    ((merger_one_per_origin_max_severity duplicatedOriginList).2 duplicatedOriginMerged
        (show duplicatedOriginMerged ∈ [duplicatedOriginMerged] from List.mem_singleton.mpr rfl)).2
      (plainRecord "RxNorm" .severe) (by simp [duplicatedOriginList]) rfl⟩

/-! ## Triple phase: re-merge of the constituent pair reports -/

/-- Every triple emitted by the inner double loop pairs its fixed first
item with two later items, in order. -/
lemma triplesFrom_shape (x : NormItem) (l : List NormItem) (t : TripleSpec)
    (ht : t ∈ triplesFrom x l) : ∃ y z, t = mkTriple x y z := by
  induction l with
  | nil => simp [triplesFrom] at ht
  | cons y rest ih =>
    simp only [triplesFrom, List.mem_append, List.mem_map] at ht
    rcases ht with ⟨z, _, hz⟩ | ht
    · exact ⟨y, z, hz.symm⟩
    · exact ih ht

/-- Every triple emitted by the triple loop is built from three items. -/
lemma triplesAux_shape (l : List NormItem) (t : TripleSpec) (ht : t ∈ triplesAux l) :
    ∃ x y z, t = mkTriple x y z := by
  induction l with
  | nil => simp [triplesAux] at ht
  | cons x rest ih =>
    simp only [triplesAux, List.mem_append] at ht
    rcases ht with ht | ht
    · obtain ⟨y, z, hz⟩ := triplesFrom_shape x rest t ht
      exact ⟨x, y, z, hz⟩
    · exact ih ht

lemma generateTriples_shape (items : List NormItem)
    (P : String → Option InteractionResult) (t : TripleSpec)
    (ht : t ∈ generateTriples items P) : ∃ x y z, t = mkTriple x y z := by
  by_cases hlen : items.length < 3
  · simp [generateTriples, hlen] at ht
  · rw [generateTriples, if_neg hlen] at ht
    exact triplesAux_shape items t ht

lemma processTriple_sources (P : String → Option InteractionResult) (lg : Nat → ℚ)
    (triple : TripleSpec) :
    (processTriple P lg triple).sources =
      mergeSources ((triple.pairs.filterMap P).foldl (fun acc r => acc ++ r.sources) []) := rfl

lemma processTriple_severity (P : String → Option InteractionResult) (lg : Nat → ℚ)
    (triple : TripleSpec) :
    (processTriple P lg triple).severity =
      calculateConsensusSeverity ((processTriple P lg triple).sources) := rfl

lemma processTriple_confidence (P : String → Option InteractionResult) (lg : Nat → ℚ)
    (triple : TripleSpec) :
    (processTriple P lg triple).confidence =
      calculateOverallConfidence lg ((processTriple P lg triple).sources) := rfl

lemma processTriple_pairResults (P : String → Option InteractionResult) (lg : Nat → ℚ)
    (triple : TripleSpec) :
    (processTriple P lg triple).pairResults = triple.pairs.filterMap P := rfl

/-- C9: every generated triple consists of three items; its report is a
pure function of the pair-results map (the triple phase makes no provider
call): its constituent pair reports are the map entries at the triple's
three pair keys, its sources are the re-merge of the concatenation of
those reports' merged source lists, and its severity and confidence are
recomputed by the consensus and confidence engines on that re-merged
list. -/
theorem triple_phase_remerges_pairs (items : List NormItem)
    (P : String → Option InteractionResult) (lg : Nat → ℚ) (t : TripleSpec)
    (ht : t ∈ generateTriples items P) :
    ∃ x y z : NormItem,
      t = mkTriple x y z ∧
      ∀ r1 r2 r3 : InteractionResult,
        P (generatePairKey x.normalized y.normalized) = some r1 →
        P (generatePairKey x.normalized z.normalized) = some r2 →
        P (generatePairKey y.normalized z.normalized) = some r3 →
          (processTriple P lg t).pairResults = [r1, r2, r3] ∧
          (processTriple P lg t).sources =
            mergeSources (r1.sources ++ r2.sources ++ r3.sources) ∧
          (processTriple P lg t).severity =
            calculateConsensusSeverity ((processTriple P lg t).sources) ∧
          (processTriple P lg t).confidence =
            calculateOverallConfidence lg ((processTriple P lg t).sources) := by
  obtain ⟨x, y, z, rfl⟩ := generateTriples_shape items P t ht
  refine ⟨x, y, z, rfl, ?_⟩
  intro r1 r2 r3 h1 h2 h3
  have hfm : (mkTriple x y z).pairs.filterMap P = [r1, r2, r3] := by
    simp [mkTriple, List.filterMap, h1, h2, h3]
  refine ⟨?_, ?_, processTriple_severity P lg _, processTriple_confidence P lg _⟩
  · rw [processTriple_pairResults, hfm]
  · rw [processTriple_sources, hfm]
    simp

/-- A fixed pair report returned for every pair key. -/
def uniformPairReport : InteractionResult :=
  { itemA := "a", itemB := "b", severity := .mild, confidence := 0,
    sources := [plainRecord "RxNorm" .mild], summary := "s", keyNotes := [] }

/-- A pair-results map answering every key with uniformPairReport. -/
def uniformPairResults : String → Option InteractionResult :=
  fun _ => some uniformPairReport

/-- The three normalized witness items. -/
def tripleWitnessItems : List NormItem :=
  [{ normalized := "a", original := "a" }, { normalized := "b", original := "b" },
   { normalized := "c", original := "c" }]

/-- C9 witness: on three items with every pair report present, the triple
report's sources are the re-merge of the three reports' source lists. -/
theorem triple_phase_remerges_pairs_witness :
    (processTriple uniformPairResults (fun _ => 0)
        (mkTriple { normalized := "a", original := "a" } { normalized := "b", original := "b" }
          { normalized := "c", original := "c" })).sources =
      mergeSources (uniformPairReport.sources ++ uniformPairReport.sources ++
        uniformPairReport.sources) := by
  obtain ⟨x, y, z, -, hrest⟩ :=
    triple_phase_remerges_pairs tripleWitnessItems uniformPairResults (fun _ => 0)
      (mkTriple { normalized := "a", original := "a" } { normalized := "b", original := "b" }
        { normalized := "c", original := "c" })
      (by decide)
  exact (hrest uniformPairReport uniformPairReport uniformPairReport rfl rfl rfl).2.1

/-! ## Confidence bounds

PipelineSource characterizes the evidence records the pair path can feed
the confidence engine: the RxNorm, SUPP.AI and AI-literature adapters
never attach a stats block (their base confidences are 0.85, 0.70, 0.60),
and only openFDA Adverse Events records (base 0.65) carry stats.  The
production lemmas below tie the characterization to the standardizers. -/

/-- The shape of every record the pair phase pushes into the merger. -/
def PipelineSource (s : InteractionSource) : Prop :=
  (s.name = "RxNorm" ∧ s.stats = Option.none) ∨
  (s.name = "SUPP.AI" ∧ s.stats = Option.none) ∨
  (s.name = "AI Literature" ∧ s.stats = Option.none) ∨
  s.name = "openFDA Adverse Events"

lemma standardizeRxNorm_pipeline (result : Option RxNormInteractionResult)
    (itemA itemB : String) (r : InteractionSource)
    (h : standardizeRxNorm result itemA itemB = some r) : PipelineSource r := by
  match result with
  | Option.none => exact absurd h (by simp [standardizeRxNorm])
  | some res =>
    rw [standardizeRxNorm] at h
    by_cases hg : res.severity.isNone = true ∧ ¬ truthyStr res.description = true
    · rw [if_pos hg] at h
      exact absurd h (by simp)
    · rw [if_neg hg] at h
      injection h with h
      subst h
      exact Or.inl ⟨rfl, rfl⟩

lemma standardizeSuppAi_pipeline (result : Option SuppAiResult) (itemA itemB : String)
    (r : InteractionSource) (h : r ∈ standardizeSuppAi result itemA itemB) :
    PipelineSource r := by
  match result with
  | Option.none => exact absurd h (by simp [standardizeSuppAi])
  | some res =>
    cases hi : res.interactions with
    | none => simp [standardizeSuppAi, hi] at h
    | some interactions =>
      simp only [standardizeSuppAi, hi] at h
      split_ifs at h
      · exact absurd h (by simp)
      · obtain ⟨⟨index, interaction⟩, -, hr⟩ := List.mem_map.mp h
        subst hr
        exact Or.inr (Or.inl ⟨rfl, rfl⟩)

lemma standardizeFdaAdverseEvents_pipeline (result : Option FdaAdverseEventsResult)
    (itemA itemB : String) (benA benB : Option Nat) (r : InteractionSource)
    (h : standardizeFdaAdverseEvents result itemA itemB benA benB = some r) :
    PipelineSource r := by
  match result with
  | Option.none => exact absurd h (by simp [standardizeFdaAdverseEvents])
  | some res =>
    rw [standardizeFdaAdverseEvents] at h
    by_cases hg : res.totalEvents = 0
    · rw [if_pos hg] at h
      exact absurd h (by simp)
    · rw [if_neg hg] at h
      injection h with h
      subst h
      exact Or.inr (Or.inr (Or.inr rfl))

lemma foldl_stats_none (g : List InteractionSource) (h : ∀ t ∈ g, t.stats = Option.none)
    (acc : Option SourceStats) :
    (g.foldl
        (fun acc s =>
          match s.stats with
          | Option.none => acc
          | some st =>
            match acc with
            | Option.none => some st
            | some a => some (assignStats a st))
        acc) = acc := by
  induction g generalizing acc with
  | nil => rfl
  | cons s rest ih =>
    have hs := h s (by simp)
    simp only [List.foldl_cons, hs]
    exact ih (fun t ht => h t (by simp [ht])) acc

/-- The stats block of a merged group all of whose members lack stats. -/
lemma mergeGroup_stats_none (k : String) (g : List InteractionSource) (hne : g ≠ [])
    (h : ∀ t ∈ g, t.stats = Option.none) : (mergeGroup k g).stats = Option.none := by
  match g with
  | [] => exact absurd rfl hne
  | [s] => simpa [mergeGroup] using h s (by simp)
  | s0 :: s1 :: rest =>
    have :
        (mergeGroup k (s0 :: s1 :: rest)).stats =
          ((s0 :: s1 :: rest).foldl
            (fun acc s =>
              match s.stats with
              | Option.none => acc
              | some st =>
                match acc with
                | Option.none => some st
                | some a => some (assignStats a st))
            Option.none) := rfl
    rw [this, foldl_stats_none _ h]

/-- Merging preserves the pipeline-record shape. -/
lemma mergeSources_pipeline (l : List InteractionSource) (h : ∀ s ∈ l, PipelineSource s) :
    ∀ m ∈ mergeSources l, PipelineSource m := by
  intro m hm
  by_cases hl : l.length = 0
  · simp [mergeSources, hl] at hm
  · rw [mergeSources, if_neg hl] at hm
    obtain ⟨k, hk, hmk⟩ := List.mem_map.mp hm
    obtain ⟨s, hs, hsk⟩ := (nameKeys_mem l k).mp hk
    have hsg : s ∈ l.filter (fun s => s.name == k) :=
      List.mem_filter.mpr ⟨hs, by simp [hsk]⟩
    have hne : l.filter (fun s => s.name == k) ≠ [] := List.ne_nil_of_mem hsg
    have hnames : ∀ t ∈ l.filter (fun s => s.name == k), t.name = k := fun t ht =>
      (mem_of_mem_filter_name ht).2
    have hmname : m.name = k := by rw [← hmk]; exact mergeGroup_name k _ hne hnames
    have hstats_of :
        k ≠ "openFDA Adverse Events" →
          ∀ t ∈ l.filter (fun s => s.name == k), t.stats = Option.none := by
      intro hkne t ht
      obtain ⟨htl, htk⟩ := mem_of_mem_filter_name ht
      rcases h t htl with ⟨-, h2⟩ | ⟨-, h2⟩ | ⟨-, h2⟩ | h2
      · exact h2
      · exact h2
      · exact h2
      · rw [htk] at h2
        exact absurd h2 hkne
    have hms_of : k ≠ "openFDA Adverse Events" → m.stats = Option.none := by
      intro hkne
      rw [← hmk]
      exact mergeGroup_stats_none k _ hne (hstats_of hkne)
    rcases h s hs with ⟨hn, -⟩ | ⟨hn, -⟩ | ⟨hn, -⟩ | hn
    · have hk : k = "RxNorm" := hsk.symm.trans hn
      have hkne : k ≠ "openFDA Adverse Events" := by rw [hk]; simp
      exact Or.inl ⟨hmname.trans hk, hms_of hkne⟩
    · have hk : k = "SUPP.AI" := hsk.symm.trans hn
      have hkne : k ≠ "openFDA Adverse Events" := by rw [hk]; simp
      exact Or.inr (Or.inl ⟨hmname.trans hk, hms_of hkne⟩)
    · have hk : k = "AI Literature" := hsk.symm.trans hn
      have hkne : k ≠ "openFDA Adverse Events" := by rw [hk]; simp
      exact Or.inr (Or.inr (Or.inl ⟨hmname.trans hk, hms_of hkne⟩))
    · have hk : k = "openFDA Adverse Events" := hsk.symm.trans hn
      exact Or.inr (Or.inr (Or.inr (hmname.trans hk)))

lemma calculateConfidence_nonneg (lg : Nat → ℚ) (s : InteractionSource) :
    0 ≤ calculateConfidence lg s :=
  le_max_left 0 _

lemma clampSeverity_le (sev : InteractionSeverity) (c : ℚ) (h : c ≤ 9/10) :
    max 0 (min 1 (if sev = .unknown then c * (7/10) else c)) ≤ 9/10 := by
  have h2 : (if sev = .unknown then c * (7/10) else c) ≤ 9/10 := by
    split_ifs
    · rcases le_total c 0 with hc | hc
      · nlinarith
      · nlinarith
    · exact h
  exact max_le (by norm_num) (le_trans (min_le_right _ _) h2)

/-- On pipeline records the recomputed per-record confidence never
exceeds 0.9 (the extreme case being openFDA Adverse Events:
0.65 + 0.15 + 0.05 + 0.05). -/
lemma calculateConfidence_le (lg : Nat → ℚ) (s : InteractionSource)
    (h : PipelineSource s) : calculateConfidence lg s ≤ 9/10 := by
  rcases hstats : s.stats with - | st
  · simp only [calculateConfidence, hstats]
    apply clampSeverity_le
    rcases h with ⟨hn, -⟩ | ⟨hn, -⟩ | ⟨hn, -⟩ | hn <;>
      · rw [hn]
        simp [BASE_CONFIDENCE]
        norm_num
  · rcases h with ⟨-, h2⟩ | ⟨-, h2⟩ | ⟨-, h2⟩ | hn
    · rw [hstats] at h2; simp at h2
    · rw [hstats] at h2; simp at h2
    · rw [hstats] at h2; simp at h2
    · simp only [calculateConfidence, hstats, hn]
      have hbase : (BASE_CONFIDENCE "openFDA Adverse Events").getD (5/10) = 65/100 := by
        simp [BASE_CONFIDENCE]
      rw [hbase]
      apply clampSeverity_le
      have hM : min (lg (st.beneficiaries.getD 0 + 1) / 10) (15/100) ≤ 15/100 :=
        min_le_right _ _
      rcases hte : st.totalEvents with - | te <;> simp only [hte] <;>
        split_ifs <;> nlinarith

lemma basConf_pos (s : InteractionSource) : 0 < (BASE_CONFIDENCE s.name).getD (5/10) := by
  simp only [BASE_CONFIDENCE]
  split_ifs <;> norm_num

/-- Sum bounds for the weighted-mean numerator and denominator. -/
lemma overall_sums_bounded (lg : Nat → ℚ) (l : List InteractionSource)
    (h : ∀ s ∈ l, PipelineSource s) :
    0 ≤ (l.map (fun s => calculateConfidence lg s * (BASE_CONFIDENCE s.name).getD (5/10))).sum ∧
    (l.map (fun s => calculateConfidence lg s * (BASE_CONFIDENCE s.name).getD (5/10))).sum ≤
      (9/10) * (l.map (fun s => (BASE_CONFIDENCE s.name).getD (5/10))).sum ∧
    0 ≤ (l.map (fun s => (BASE_CONFIDENCE s.name).getD (5/10))).sum := by
  induction l with
  | nil => norm_num
  | cons s rest ih =>
    obtain ⟨ih1, ih2, ih3⟩ := ih (fun t ht => h t (by simp [ht]))
    have hw := basConf_pos s
    have hc0 := calculateConfidence_nonneg lg s
    have hc9 := calculateConfidence_le lg s (h s (by simp))
    refine ⟨?_, ?_, ?_⟩
    · simp only [List.map_cons, List.sum_cons]
      have : 0 ≤ calculateConfidence lg s * (BASE_CONFIDENCE s.name).getD (5/10) :=
        mul_nonneg hc0 (le_of_lt hw)
      linarith
    · simp only [List.map_cons, List.sum_cons]
      have : calculateConfidence lg s * (BASE_CONFIDENCE s.name).getD (5/10) ≤
          (9/10) * (BASE_CONFIDENCE s.name).getD (5/10) :=
        mul_le_mul_of_nonneg_right hc9 (le_of_lt hw)
      nlinarith
    · simp only [List.map_cons, List.sum_cons]
      linarith

/-- The aggregate confidence of any list of pipeline records lies in
[0, 0.9]. -/
lemma calculateOverallConfidence_bounds (lg : Nat → ℚ) (l : List InteractionSource)
    (h : ∀ s ∈ l, PipelineSource s) :
    0 ≤ calculateOverallConfidence lg l ∧ calculateOverallConfidence lg l ≤ 9/10 := by
  obtain ⟨h1, h2, h3⟩ := overall_sums_bounded lg l h
  by_cases hlen : l.length = 0
  · rw [calculateOverallConfidence, if_pos hlen]
    norm_num
  · by_cases hpos : (l.map (fun s => (BASE_CONFIDENCE s.name).getD (5/10))).sum > 0
    · have hval :
          calculateOverallConfidence lg l =
            (l.map
                (fun s => calculateConfidence lg s * (BASE_CONFIDENCE s.name).getD (5/10))).sum /
              (l.map (fun s => (BASE_CONFIDENCE s.name).getD (5/10))).sum := by
        rw [calculateOverallConfidence, if_neg hlen, if_pos hpos]
      rw [hval]
      constructor
      · exact div_nonneg h1 (le_of_lt hpos)
      · rw [div_le_iff₀ hpos]
        linarith
    · have hval : calculateOverallConfidence lg l = 0 := by
        rw [calculateOverallConfidence, if_neg hlen, if_neg hpos]
      rw [hval]
      norm_num

/-- Sources appearing in the triple phase's concatenation of pair-report
source lists. -/
lemma mem_foldl_append (rs : List InteractionResult) (acc : List InteractionSource)
    (s : InteractionSource) (h : s ∈ rs.foldl (fun acc r => acc ++ r.sources) acc) :
    s ∈ acc ∨ ∃ r ∈ rs, s ∈ r.sources := by
  induction rs generalizing acc with
  | nil => exact Or.inl h
  | cons r rest ih =>
    rcases ih (acc ++ r.sources) h with hs | ⟨r2, hr2, hs⟩
    · rcases List.mem_append.mp hs with hs | hs
      · exact Or.inl hs
      · exact Or.inr ⟨r, by simp, hs⟩
    · exact Or.inr ⟨r2, by simp [hr2], hs⟩

/-- C5: every pair report's stored confidence and every triple report's
stored confidence lies in [0, 0.95] — in particular it never reaches 1.0.
The pair bound covers all three code paths (RxNorm-failure override 0,
empty-list baselines 0.3/0.5/0.7, weighted mean ≤ 0.9); the triple bound
covers the recomputed mean over the re-merged pair sources.  Singles
carry no confidence field. -/
theorem report_confidence_bounded (lg : Nat → ℚ) (c : PairProviderCtx)
    (l : List InteractionSource) (hl : ∀ s ∈ l, PipelineSource s)
    (P : String → Option InteractionResult) (t : TripleSpec)
    (hP : ∀ key r, P key = some r → ∀ s ∈ r.sources, PipelineSource s) :
    (0 ≤ pairConfidence lg c (mergeSources l) ∧
      pairConfidence lg c (mergeSources l) ≤ 19/20) ∧
    (0 ≤ (processTriple P lg t).confidence ∧
      (processTriple P lg t).confidence ≤ 19/20) := by
  have hmerged := mergeSources_pipeline l hl
  obtain ⟨hov0, hov9⟩ := calculateOverallConfidence_bounds lg (mergeSources l) hmerged
  constructor
  · rw [pairConfidence]
    split_ifs
    · exact ⟨le_refl 0, by norm_num⟩
    · exact ⟨by norm_num, by norm_num⟩
    · exact ⟨by norm_num, by norm_num⟩
    · exact ⟨by norm_num, by norm_num⟩
    · exact ⟨hov0, by linarith⟩
    · exact ⟨hov0, by linarith⟩
  · have hall :
        ∀ s ∈ (t.pairs.filterMap P).foldl (fun acc r => acc ++ r.sources) [],
          PipelineSource s := by
      intro s hs
      rcases mem_foldl_append _ _ s hs with hs | ⟨r, hr, hs⟩
      · simp at hs
      · obtain ⟨key, -, hkey⟩ := List.mem_filterMap.mp hr
        exact hP key r hkey s hs
    obtain ⟨h0, h9⟩ :=
      calculateOverallConfidence_bounds lg
        (mergeSources ((t.pairs.filterMap P).foldl (fun acc r => acc ++ r.sources) []))
        (mergeSources_pipeline _ hall)
    rw [processTriple_confidence, processTriple_sources]
    exact ⟨h0, by linarith⟩

/-- C5 witness: a single merged RxNorm record under the all-ok context,
and a triple over an empty pair map, both stay within [0, 0.95]. -/
theorem report_confidence_bounded_witness :
    (0 ≤ pairConfidence (fun _ => 0) fullOkCtx (mergeSources [plainRecord "RxNorm" .mild]) ∧
      pairConfidence (fun _ => 0) fullOkCtx (mergeSources [plainRecord "RxNorm" .mild]) ≤
        19/20) ∧
    (0 ≤ (processTriple (fun _ => Option.none) (fun _ => 0)
        (mkTriple { normalized := "a", original := "a" } { normalized := "b", original := "b" }
          { normalized := "c", original := "c" })).confidence ∧
      (processTriple (fun _ => Option.none) (fun _ => 0)
        (mkTriple { normalized := "a", original := "a" } { normalized := "b", original := "b" }
          { normalized := "c", original := "c" })).confidence ≤ 19/20) :=
  report_confidence_bounded (fun _ => 0) fullOkCtx [plainRecord "RxNorm" .mild]
    (by
      intro s hs
      rcases List.mem_singleton.mp hs with rfl
      exact Or.inl ⟨rfl, rfl⟩)
    (fun _ => Option.none)
    (mkTriple { normalized := "a", original := "a" } { normalized := "b", original := "b" }
      { normalized := "c", original := "c" })
    (by intro key r h; cases h)

/-! ## Normalizer: canonical form and idempotence

A canonical character list — the image of normalizeChars — has no leading
or trailing whitespace, every whitespace character is a single space with
non-whitespace neighbours, no whitespace touches a slash, and every
character is fixed by the lowercase map. -/

/-- The head, if any, is not whitespace. -/
def headOk (l : List Char) : Bool :=
  match l with
  | [] => true
  | c :: _ => !(isJsWs c)

/-- The last character, if any, is not whitespace. -/
def lastOk : List Char → Bool
  | [] => true
  | [c] => !(isJsWs c)
  | _ :: c :: rest => lastOk (c :: rest)

/-- Every whitespace character is a plain space. -/
def wsSpacesOnly (l : List Char) : Bool :=
  l.all (fun c => !(isJsWs c) || c == ' ')

/-- Every character is fixed by the lowercase map. -/
def allLower (l : List Char) : Bool :=
  l.all (fun c => c.toLower == c)

/-- A predicate on all adjacent pairs. -/
def pairwiseOk (p : Char → Char → Bool) : List Char → Bool
  | c1 :: c2 :: rest => p c1 c2 && pairwiseOk p (c2 :: rest)
  | _ => true

/-- No two adjacent whitespace characters. -/
def noDoubleWsP (c1 c2 : Char) : Bool :=
  !(isJsWs c1 && isJsWs c2)

/-- No whitespace adjacent to a slash, on either side. -/
def noWsSlashP (c1 c2 : Char) : Bool :=
  !(isJsWs c1 && c2 == '/') && !(c1 == '/' && isJsWs c2)

/-- The canonical-form invariant of normalizeChars output. -/
def CanonicalChars (l : List Char) : Bool :=
  headOk l && lastOk l && wsSpacesOnly l && allLower l &&
    pairwiseOk noDoubleWsP l && pairwiseOk noWsSlashP l

lemma pairwiseOk_cons (p : Char → Char → Bool) (c : Char) (l : List Char) :
    pairwiseOk p (c :: l) =
      ((match l.head? with
        | some d => p c d
        | Option.none => true) && pairwiseOk p l) := by
  cases l <;> simp [pairwiseOk]

lemma pairwiseOk_tail (p : Char → Char → Bool) (c : Char) (l : List Char)
    (h : pairwiseOk p (c :: l) = true) : pairwiseOk p l = true := by
  rw [pairwiseOk_cons, Bool.and_eq_true] at h
  exact h.2

lemma pairwiseOk_head (p : Char → Char → Bool) (c d : Char) (l : List Char)
    (h : pairwiseOk p (c :: l) = true) (hd : l.head? = some d) : p c d = true := by
  rw [pairwiseOk_cons, Bool.and_eq_true, hd] at h
  exact h.1

lemma char_toNat_ofNat_valid (n : Nat) (h : n < 55296) : (Char.ofNat n).toNat = n := by
  unfold Char.ofNat
  rw [dif_pos (Or.inl h)]
  rfl

/-- The character-wise lowercase map is idempotent. -/
lemma toLower_idem (c : Char) : c.toLower.toLower = c.toLower := by
  unfold Char.toLower
  by_cases h : c.toNat ≥ 65 ∧ c.toNat ≤ 90
  · rw [if_pos h]
    have hv : (Char.ofNat (c.toNat + 32)).toNat = c.toNat + 32 :=
      char_toNat_ofNat_valid _ (by omega)
    rw [if_neg (by rw [hv]; omega)]
  · rw [if_neg h, if_neg h]

lemma mem_rswGo (f : Bool) (l : List Char) (c : Char) (h : c ∈ replaceSlashWsGo f l) :
    c ∈ l := by
  induction l generalizing f with
  | nil => simpa [replaceSlashWsGo] using h
  | cons c0 rest ih =>
    rw [replaceSlashWsGo] at h
    split_ifs at h with h1 h2 h3 h4
    · exact List.mem_cons_of_mem c0 (ih true h)
    · exact List.mem_cons_of_mem c0 (ih false h)
    · rcases List.mem_cons.mp h with rfl | h
      · exact List.mem_cons_self _ _
      · exact List.mem_cons_of_mem c0 (ih false h)
    · rcases List.mem_cons.mp h with rfl | h
      · rw [h4]
        exact List.mem_cons_self _ _
      · exact List.mem_cons_of_mem c0 (ih true h)
    · rcases List.mem_cons.mp h with rfl | h
      · exact List.mem_cons_self _ _
      · exact List.mem_cons_of_mem c0 (ih false h)

lemma mem_collapseWhitespace (l : List Char) (c : Char) (h : c ∈ collapseWhitespace l) :
    c ∈ l ∨ c = ' ' := by
  induction l with
  | nil => simpa [collapseWhitespace] using h
  | cons c0 rest ih =>
    rw [collapseWhitespace] at h
    split_ifs at h with h1 h2
    · rcases ih h with h | h
      · exact Or.inl (List.mem_cons_of_mem c0 h)
      · exact Or.inr h
    · rcases List.mem_cons.mp h with rfl | h
      · exact Or.inr rfl
      · rcases ih h with h | h
        · exact Or.inl (List.mem_cons_of_mem c0 h)
        · exact Or.inr h
    · rcases List.mem_cons.mp h with rfl | h
      · exact Or.inl (List.mem_cons_self _ _)
      · rcases ih h with h | h
        · exact Or.inl (List.mem_cons_of_mem c0 h)
        · exact Or.inr h

lemma mem_trimEndJs (l : List Char) (c : Char) (h : c ∈ trimEndJs l) : c ∈ l := by
  induction l with
  | nil => simpa [trimEndJs] using h
  | cons c0 rest ih =>
    rw [trimEndJs] at h
    split_ifs at h with h1
    · simp at h
    · rcases List.mem_cons.mp h with rfl | h
      · exact List.mem_cons_self _ _
      · exact List.mem_cons_of_mem c0 (ih h)

lemma mem_trimJs (l : List Char) (c : Char) (h : c ∈ trimJs l) : c ∈ l :=
  (List.dropWhile_sublist isJsWs).subset (mem_trimEndJs _ c h)

lemma all_of_subset (p : Char → Bool) (l1 l2 : List Char)
    (hsub : ∀ c ∈ l1, c ∈ l2) (h : l2.all p = true) : l1.all p = true := by
  rw [List.all_eq_true] at h ⊢
  exact fun c hc => h c (hsub c hc)

lemma isJsWs_slash : isJsWs '/' = false := by decide

/-- In trailing-whitespace-skip mode the scan never emits a whitespace
head. -/
lemma rswGo_true_head_not_ws (l : List Char) (c : Char)
    (h : (replaceSlashWsGo true l).head? = some c) : isJsWs c = false := by
  induction l with
  | nil => simp [replaceSlashWsGo] at h
  | cons c0 rest ih =>
    rw [replaceSlashWsGo] at h
    by_cases h1 : isJsWs c0
    · rw [if_pos h1, if_pos rfl] at h
      exact ih h
    · rw [if_neg h1] at h
      by_cases h2 : c0 = '/'
      · rw [if_pos h2] at h
        simp only [List.head?_cons, Option.some.injEq] at h
        subst h
        exact isJsWs_slash
      · rw [if_neg h2] at h
        simp only [List.head?_cons, Option.some.injEq] at h
        subst h
        simpa using h1

/-- A slash at the head of the normal-mode output comes from the first
non-whitespace character of the input. -/
lemma rswGo_false_head_slash (l : List Char)
    (h : (replaceSlashWsGo false l).head? = some '/') :
    (l.dropWhile isJsWs).head? = some '/' := by
  induction l with
  | nil => simp [replaceSlashWsGo] at h
  | cons c0 rest ih =>
    rw [replaceSlashWsGo] at h
    by_cases h1 : isJsWs c0
    · rw [if_pos h1, if_neg (by simp : ¬ (false = true))] at h
      rw [List.dropWhile_cons_of_pos h1]
      by_cases h2 : (rest.dropWhile isJsWs).head? = some '/'
      · exact h2
      · rw [if_neg h2] at h
        simp only [List.head?_cons, Option.some.injEq] at h
        rw [h] at h1
        rw [isJsWs_slash] at h1
        simp at h1
    · rw [if_neg h1] at h
      rw [List.dropWhile_cons_of_neg (by simpa using h1)]
      by_cases h2 : c0 = '/'
      · simp [h2]
      · rw [if_neg h2] at h
        simp only [List.head?_cons, Option.some.injEq] at h
        exact absurd h h2

/-- The slash scan never leaves whitespace adjacent to a slash. -/
lemma rswGo_noWsSlash (l : List Char) (f : Bool) :
    pairwiseOk noWsSlashP (replaceSlashWsGo f l) = true := by
  induction l generalizing f with
  | nil => simp [replaceSlashWsGo, pairwiseOk]
  | cons c0 rest ih =>
    rw [replaceSlashWsGo]
    by_cases h1 : isJsWs c0
    · rw [if_pos h1]
      cases f with
      | true =>
        rw [if_pos rfl]
        exact ih true
      | false =>
        rw [if_neg (by simp : ¬ (false = true))]
        by_cases h2 : (rest.dropWhile isJsWs).head? = some '/'
        · rw [if_pos h2]
          exact ih false
        · rw [if_neg h2, pairwiseOk_cons, Bool.and_eq_true]
          refine ⟨?_, ih false⟩
          rcases hh : (replaceSlashWsGo false rest).head? with - | d
          · simp
          · have hslash : ¬ d = '/' := by
              intro hd
              rw [hd] at hh
              exact h2 (rswGo_false_head_slash rest hh)
            have hc0 : ¬ c0 = '/' := by
              intro hc
              rw [hc, isJsWs_slash] at h1
              simp at h1
            simp [noWsSlashP, hslash, hc0]
    · rw [if_neg h1]
      by_cases h2 : c0 = '/'
      · rw [if_pos h2, pairwiseOk_cons, Bool.and_eq_true]
        refine ⟨?_, ih true⟩
        rcases hh : (replaceSlashWsGo true rest).head? with - | d
        · simp
        · have hd := rswGo_true_head_not_ws rest d hh
          simp [noWsSlashP, hd, isJsWs_slash]
      · rw [if_neg h2, pairwiseOk_cons, Bool.and_eq_true]
        refine ⟨?_, ih false⟩
        rcases hh : (replaceSlashWsGo false rest).head? with - | d
        · simp
        · simp [noWsSlashP, h1, h2]

/-- A non-whitespace head of the collapse output is the input head. -/
lemma collapse_head_nonws (l : List Char) (c : Char)
    (h : (collapseWhitespace l).head? = some c) (hc : isJsWs c = false) :
    l.head? = some c := by
  induction l with
  | nil => simp [collapseWhitespace] at h
  | cons c0 rest ih =>
    rw [collapseWhitespace] at h
    split_ifs at h with h1 h2
    · have := ih h
      rcases hr : rest.head? with - | d
      · rw [hr] at this
        simp at this
      · rw [hr] at this
        simp only [Option.some.injEq] at this
        subst this
        rw [hr] at h2
        simp only [Option.any_some] at h2
        rw [h2] at hc
        simp at hc
    · simp only [List.head?_cons, Option.some.injEq] at h
      subst h
      exact absurd hc (by decide)
    · simpa using h

/-- A whitespace head of the input yields head space in the output. -/
lemma collapse_head_of_ws (l : List Char) (h : l.head?.any isJsWs = true) :
    (collapseWhitespace l).head? = some ' ' := by
  induction l with
  | nil => simp at h
  | cons c1 rest ih =>
    simp only [List.head?_cons, Option.any_some] at h
    rw [collapseWhitespace, if_pos h]
    by_cases h2 : rest.head?.any isJsWs
    · rw [if_pos h2]
      exact ih h2
    · rw [if_neg h2]
      simp

/-- A whitespace head of the collapse output certifies a whitespace head
of the input. -/
lemma collapse_head_ws_source (l : List Char) (d : Char)
    (h : (collapseWhitespace l).head? = some d) (hd : isJsWs d = true) :
    l.head?.any isJsWs = true := by
  induction l with
  | nil => simp [collapseWhitespace] at h
  | cons c1 rest ih =>
    rw [collapseWhitespace] at h
    split_ifs at h with h1 h2
    · simpa using h1
    · simpa using h1
    · simp only [List.head?_cons, Option.some.injEq] at h
      subst h
      rw [hd] at h1
      simp at h1

lemma wsSpacesOnly_cons (c : Char) (l : List Char) :
    wsSpacesOnly (c :: l) = ((!(isJsWs c) || c == ' ') && wsSpacesOnly l) := by
  simp [wsSpacesOnly]

lemma collapse_wsSpacesOnly (l : List Char) : wsSpacesOnly (collapseWhitespace l) = true := by
  induction l with
  | nil => simp [collapseWhitespace, wsSpacesOnly]
  | cons c0 rest ih =>
    rw [collapseWhitespace]
    split_ifs with h1 h2
    · exact ih
    · rw [wsSpacesOnly_cons, Bool.and_eq_true]
      exact ⟨by decide, ih⟩
    · rw [wsSpacesOnly_cons, Bool.and_eq_true]
      exact ⟨by simp [h1], ih⟩

lemma collapse_noDoubleWs (l : List Char) :
    pairwiseOk noDoubleWsP (collapseWhitespace l) = true := by
  induction l with
  | nil => simp [collapseWhitespace, pairwiseOk]
  | cons c0 rest ih =>
    rw [collapseWhitespace]
    split_ifs with h1 h2
    · exact ih
    · rw [pairwiseOk_cons, Bool.and_eq_true]
      refine ⟨?_, ih⟩
      rcases hh : (collapseWhitespace rest).head? with - | d
      · simp
      · by_cases hd : isJsWs d
        · exact absurd (collapse_head_ws_source rest d hh hd) (by simpa using h2)
        · simp [noDoubleWsP, hd]
    · rw [pairwiseOk_cons, Bool.and_eq_true]
      refine ⟨?_, ih⟩
      rcases hh : (collapseWhitespace rest).head? with - | d
      · simp
      · simp [noDoubleWsP, h1]

lemma collapse_noWsSlash (l : List Char) (h : pairwiseOk noWsSlashP l = true) :
    pairwiseOk noWsSlashP (collapseWhitespace l) = true := by
  induction l with
  | nil => simp [collapseWhitespace, pairwiseOk]
  | cons c0 rest ih =>
    have htail := pairwiseOk_tail _ _ _ h
    rw [collapseWhitespace]
    split_ifs with h1 h2
    · exact ih htail
    · rw [pairwiseOk_cons, Bool.and_eq_true]
      refine ⟨?_, ih htail⟩
      rcases hh : (collapseWhitespace rest).head? with - | d
      · simp
      · have hdslash : ¬ d = '/' := by
          intro hd
          subst hd
          have hsrc := collapse_head_nonws rest '/' hh isJsWs_slash
          have hp := pairwiseOk_head _ _ _ _ h hsrc
          simp [noWsSlashP, h1] at hp
        simp [noWsSlashP, hdslash]
    · rw [pairwiseOk_cons, Bool.and_eq_true]
      refine ⟨?_, ih htail⟩
      rcases hh : (collapseWhitespace rest).head? with - | d
      · simp
      · by_cases hd : isJsWs d
        · have hsrc := collapse_head_ws_source rest d hh hd
          rcases hr : rest.head? with - | e
          · rw [hr] at hsrc
            simp at hsrc
          · rw [hr] at hsrc
            simp only [Option.any_some] at hsrc
            have hp := pairwiseOk_head _ _ _ _ h hr
            have hc0 : ¬ c0 = '/' := by
              intro hc
              subst hc
              simp [noWsSlashP, hsrc] at hp
            simp [noWsSlashP, h1, hc0]
        · simp [noWsSlashP, h1, hd]

lemma dropWhile_headOk (l : List Char) : headOk (l.dropWhile isJsWs) = true := by
  induction l with
  | nil => simp [headOk]
  | cons c rest ih =>
    by_cases hc : isJsWs c
    · rw [List.dropWhile_cons_of_pos hc]
      exact ih
    · rw [List.dropWhile_cons_of_neg hc]
      simpa [headOk] using hc

lemma dropWhile_pairwiseOk (p : Char → Char → Bool) (l : List Char)
    (h : pairwiseOk p l = true) : pairwiseOk p (l.dropWhile isJsWs) = true := by
  induction l with
  | nil => simpa using h
  | cons c rest ih =>
    by_cases hc : isJsWs c
    · rw [List.dropWhile_cons_of_pos hc]
      exact ih (pairwiseOk_tail _ _ _ h)
    · rw [List.dropWhile_cons_of_neg hc]
      exact h

lemma trimEndJs_head (l : List Char) (hne : trimEndJs l ≠ []) :
    (trimEndJs l).head? = l.head? := by
  cases l with
  | nil => rfl
  | cons c rest =>
    rw [trimEndJs] at hne ⊢
    split_ifs at hne ⊢ with h1
    · exact absurd rfl hne
    · rfl

lemma trimEndJs_pairwiseOk (p : Char → Char → Bool) (l : List Char)
    (h : pairwiseOk p l = true) : pairwiseOk p (trimEndJs l) = true := by
  induction l with
  | nil => simpa using h
  | cons c rest ih =>
    rw [trimEndJs]
    split_ifs with h1
    · rfl
    · rw [pairwiseOk_cons, Bool.and_eq_true]
      refine ⟨?_, ih (pairwiseOk_tail _ _ _ h)⟩
      rcases hh : (trimEndJs rest).head? with - | d
      · simp
      · have hne : trimEndJs rest ≠ [] := by
          intro he
          rw [he] at hh
          simp at hh
        rw [trimEndJs_head rest hne] at hh
        show p c d = true
        exact pairwiseOk_head _ _ _ _ h hh

lemma trimEndJs_lastOk (l : List Char) : lastOk (trimEndJs l) = true := by
  induction l with
  | nil => simp [trimEndJs, lastOk]
  | cons c rest ih =>
    rw [trimEndJs]
    split_ifs with h1
    · simp [lastOk]
    · rcases he : trimEndJs rest with - | ⟨d, r2⟩
      · rw [he] at h1
        simp only [List.length_nil, true_and] at h1
        simp only [lastOk]
        simpa using h1
      · rw [he] at ih
        simpa [lastOk] using ih

lemma trimEndJs_headOk (l : List Char) (h : headOk l = true) :
    headOk (trimEndJs l) = true := by
  cases l with
  | nil => simp [trimEndJs, headOk]
  | cons c rest =>
    rw [trimEndJs]
    split_ifs with h1
    · simp [headOk]
    · simpa [headOk] using h

/-! ### Fixed points of the stages on canonical lists -/

lemma dropWhile_fix (l : List Char) (h : headOk l = true) : l.dropWhile isJsWs = l := by
  cases l with
  | nil => rfl
  | cons c rest =>
    simp only [headOk, Bool.not_eq_true'] at h
    rw [List.dropWhile_cons_of_neg (by simp [h])]

lemma trimEndJs_fix (l : List Char) (h : lastOk l = true) : trimEndJs l = l := by
  induction l with
  | nil => rfl
  | cons c rest ih =>
    cases rest with
    | nil =>
      simp only [lastOk, Bool.not_eq_true'] at h
      rw [trimEndJs]
      rw [if_neg (by simp [trimEndJs, h])]
      rfl
    | cons d r2 =>
      have hrest : trimEndJs (d :: r2) = d :: r2 := ih (by simpa [lastOk] using h)
      rw [trimEndJs, hrest]
      rw [if_neg (by simp)]

lemma trimJs_fix (l : List Char) (h1 : headOk l = true) (h2 : lastOk l = true) :
    trimJs l = l := by
  rw [trimJs, trimStartJs, dropWhile_fix l h1, trimEndJs_fix l h2]

lemma map_toLower_fix (l : List Char) (h : allLower l = true) :
    l.map Char.toLower = l := by
  induction l with
  | nil => rfl
  | cons c rest ih =>
    rw [allLower, List.all_cons, Bool.and_eq_true] at h
    rw [List.map_cons, eq_of_beq h.1, ih h.2]

lemma collapse_fix (l : List Char) (hws : wsSpacesOnly l = true)
    (hnd : pairwiseOk noDoubleWsP l = true) : collapseWhitespace l = l := by
  induction l with
  | nil => rfl
  | cons c0 rest ih =>
    rw [wsSpacesOnly_cons, Bool.and_eq_true] at hws
    have htail := ih hws.2 (pairwiseOk_tail _ _ _ hnd)
    rw [collapseWhitespace]
    split_ifs with h1 h2
    · rcases hr : rest.head? with - | d
      · rw [hr] at h2
        simp at h2
      · rw [hr] at h2
        simp only [Option.any_some] at h2
        have hp := pairwiseOk_head _ _ _ _ hnd hr
        simp [noDoubleWsP, h1, h2] at hp
    · have hc0 : c0 = ' ' := by
        have := hws.1
        rw [h1] at this
        simpa using this
      rw [htail, hc0]
    · rw [htail]

lemma rswGo_fix (l : List Char) (f : Bool) (hnw : pairwiseOk noWsSlashP l = true)
    (hnd : pairwiseOk noDoubleWsP l = true) (hf : f = true → headOk l = true) :
    replaceSlashWsGo f l = l := by
  induction l generalizing f with
  | nil => rfl
  | cons c0 rest ih =>
    have hnw2 := pairwiseOk_tail _ _ _ hnw
    have hnd2 := pairwiseOk_tail _ _ _ hnd
    rw [replaceSlashWsGo]
    by_cases h1 : isJsWs c0
    · have hff : f = false := by
        cases f with
        | false => rfl
        | true =>
          have := hf rfl
          simp only [headOk, Bool.not_eq_true'] at this
          rw [h1] at this
          simp at this
      subst hff
      rw [if_pos h1, if_neg (by simp : ¬ (false = true))]
      have hlook : ¬ (rest.dropWhile isJsWs).head? = some '/' := by
        rcases hr : rest with - | ⟨d, r2⟩
        · simp
        · have hp := pairwiseOk_head _ _ _ _ hnd (by rw [hr]; rfl)
          have hq := pairwiseOk_head _ _ _ _ hnw (by rw [hr]; rfl)
          simp only [noDoubleWsP, h1, Bool.true_and, Bool.not_eq_true'] at hp
          rw [List.dropWhile_cons_of_neg (by simp [hp])]
          simp only [noWsSlashP, h1, Bool.true_and] at hq
          rw [Bool.and_eq_true] at hq
          have := hq.1
          simp only [Bool.not_eq_true'] at this
          simp [this]
          intro hcon
          rw [hcon] at this
          simp at this
      rw [if_neg hlook, ih false hnw2 hnd2 (by simp)]
    · by_cases h2 : c0 = '/'
      · rw [if_neg h1, if_pos h2]
        have hhead : headOk rest = true := by
          rcases hr : rest with - | ⟨d, r2⟩
          · simp [headOk]
          · have hq := pairwiseOk_head _ _ _ _ hnw (by rw [hr]; rfl)
            simp only [noWsSlashP, h2, Bool.and_eq_true] at hq
            have := hq.2
            simp only [Bool.not_eq_true] at this
            simp only [headOk]
            rcases hd : isJsWs d
            · simp
            · rw [hd] at this
              simp at this
        rw [ih true hnw2 hnd2 (fun _ => hhead), h2]
      · rw [if_neg h1, if_neg h2, ih false hnw2 hnd2 (by simp)]

lemma allLower_map_toLower (l : List Char) : allLower (l.map Char.toLower) = true := by
  rw [allLower, List.all_eq_true]
  intro c hc
  obtain ⟨d, -, rfl⟩ := List.mem_map.mp hc
  simpa using toLower_idem d

lemma allLower_collapse (l : List Char) (h : allLower l = true) :
    allLower (collapseWhitespace l) = true := by
  rw [allLower, List.all_eq_true]
  intro c hc
  rcases mem_collapseWhitespace l c hc with hm | rfl
  · exact (List.all_eq_true.mp h) c hm
  · decide

/-- The canonicalization pipeline always lands in canonical form. -/
lemma normalizeChars_canonical (l : List Char) :
    CanonicalChars (normalizeChars l) = true := by
  rw [normalizeChars]
  have hl0 : allLower ((trimJs l).map Char.toLower) = true := allLower_map_toLower _
  have hl1 : allLower (replaceSlashWhitespace ((trimJs l).map Char.toLower)) = true :=
    all_of_subset _ _ _ (fun c hc => mem_rswGo false _ c hc) hl0
  have hn1 :
      pairwiseOk noWsSlashP (replaceSlashWhitespace ((trimJs l).map Char.toLower)) = true :=
    rswGo_noWsSlash _ false
  have hl2 :
      allLower (collapseWhitespace (replaceSlashWhitespace ((trimJs l).map Char.toLower))) =
        true :=
    allLower_collapse _ hl1
  have hws2 :
      wsSpacesOnly
          (collapseWhitespace (replaceSlashWhitespace ((trimJs l).map Char.toLower))) = true :=
    collapse_wsSpacesOnly _
  have hnd2 :
      pairwiseOk noDoubleWsP
          (collapseWhitespace (replaceSlashWhitespace ((trimJs l).map Char.toLower))) = true :=
    collapse_noDoubleWs _
  have hnw2 :
      pairwiseOk noWsSlashP
          (collapseWhitespace (replaceSlashWhitespace ((trimJs l).map Char.toLower))) = true :=
    collapse_noWsSlash _ hn1
  rw [CanonicalChars]
  simp only [Bool.and_eq_true]
  refine ⟨⟨⟨⟨⟨?_, ?_⟩, ?_⟩, ?_⟩, ?_⟩, ?_⟩
  · exact trimEndJs_headOk _ (dropWhile_headOk _)
  · exact trimEndJs_lastOk _
  · exact all_of_subset _ _ _ (fun c hc => mem_trimJs _ c hc) hws2
  · exact all_of_subset _ _ _ (fun c hc => mem_trimJs _ c hc) hl2
  · exact trimEndJs_pairwiseOk _ _ (dropWhile_pairwiseOk _ _ hnd2)
  · exact trimEndJs_pairwiseOk _ _ (dropWhile_pairwiseOk _ _ hnw2)

/-- The character-level canonicalizer is idempotent. -/
lemma normalizeChars_idem (l : List Char) :
    normalizeChars (normalizeChars l) = normalizeChars l := by
  have hc := normalizeChars_canonical l
  rw [CanonicalChars] at hc
  simp only [Bool.and_eq_true] at hc
  obtain ⟨⟨⟨⟨⟨h1, h2⟩, h3⟩, h4⟩, h5⟩, h6⟩ := hc
  set y := normalizeChars l with hy
  rw [normalizeChars, trimJs_fix y h1 h2, map_toLower_fix y h4, replaceSlashWhitespace,
    rswGo_fix y false h6 h5 (by simp), collapse_fix y h3 h5, trimJs_fix y h1 h2]

/-- String-level idempotence of normalizeMedicationValue. -/
lemma normalizeMedicationValue_idem (s : String) :
    normalizeMedicationValue (normalizeMedicationValue s) = normalizeMedicationValue s :=
  congrArg String.mk (normalizeChars_idem s.data)

lemma lexLe_total (a b : List Char) : lexLe a b = true ∨ lexLe b a = true := by
  induction a generalizing b with
  | nil => exact Or.inl rfl
  | cons c as ih =>
    cases b with
    | nil => exact Or.inr rfl
    | cons d bs =>
      rw [lexLe, lexLe]
      by_cases h1 : c.toNat < d.toNat
      · rw [if_pos h1]
        exact Or.inl rfl
      · by_cases h2 : d.toNat < c.toNat
        · refine Or.inr ?_
          rw [if_pos h2]
        · rw [if_neg h1, if_neg h2, if_neg h2, if_neg h1]
          exact ih bs

lemma lexLe_antisymm (a b : List Char) (h1 : lexLe a b = true) (h2 : lexLe b a = true) :
    a = b := by
  induction a generalizing b with
  | nil =>
    cases b with
    | nil => rfl
    | cons d bs => simp [lexLe] at h2
  | cons c as ih =>
    cases b with
    | nil => simp [lexLe] at h1
    | cons d bs =>
      rw [lexLe] at h1 h2
      by_cases hc1 : c.toNat < d.toNat
      · have hnd : ¬ d.toNat < c.toNat := by omega
        rw [if_neg hnd, if_pos hc1] at h2
        simp at h2
      · by_cases hc2 : d.toNat < c.toNat
        · rw [if_neg hc1, if_pos hc2] at h1
          simp at h1
        · rw [if_neg hc1, if_neg hc2] at h1
          rw [if_neg hc2, if_neg hc1] at h2
          have hn : c.toNat = d.toNat := by omega
          have hval : c.val = d.val := by
            have h2n : c.val.toNat = d.val.toNat := hn
            exact UInt32.toNat.inj h2n
          rw [Char.eq_of_val_eq hval, ih bs h1 h2]

/-- C7: pairKey is symmetric in its two inputs, the canonicalizer is
idempotent, and hence pairKey applied to already-canonicalized values
coincides with pairKey on the raw values. -/
theorem pairKey_symmetric_canonicalizer_idempotent (a b : String) :
    generatePairKey a b = generatePairKey b a ∧
    (∀ s : String,
      normalizeMedicationValue (normalizeMedicationValue s) = normalizeMedicationValue s) ∧
    generatePairKey (normalizeMedicationValue a) (normalizeMedicationValue b) =
      generatePairKey a b := by
  refine ⟨?_, fun s => normalizeMedicationValue_idem s, ?_⟩
  · rw [generatePairKey, generatePairKey]
    by_cases h1 :
        lexLe (normalizeMedicationValue a).data (normalizeMedicationValue b).data = true
    · by_cases h2 :
          lexLe (normalizeMedicationValue b).data (normalizeMedicationValue a).data = true
      · have hd := lexLe_antisymm _ _ h1 h2
        have heq : normalizeMedicationValue a = normalizeMedicationValue b := String.ext hd
        rw [if_pos h1, if_pos h2, heq]
      · rw [if_pos h1, if_neg h2]
    · have h2 :
          lexLe (normalizeMedicationValue b).data (normalizeMedicationValue a).data = true := by
        rcases lexLe_total (normalizeMedicationValue a).data
            (normalizeMedicationValue b).data with h | h
        · exact absurd h h1
        · exact h
      rw [if_neg h1, if_pos h2]
  · rw [generatePairKey, generatePairKey, normalizeMedicationValue_idem a,
      normalizeMedicationValue_idem b]

end Vitacheck
